import Mathlib

set_option maxHeartbeats 400000

/-!
# Verification of the cienciaMx OAI-PMH harvesting core

A shallow embedding of the harvesting engine of the cienciaMx repository:

* `src/crawler/dspace_client.py` — `DSpaceClient.parse_resumption_token`,
  `DSpaceClient.get_all_records_paginated`, `DSpaceClient.get_records_xml`,
  `crawl_all_endpoints_xml`;
* `src/dspace_client.py` — the merging variant `DSpaceClient.get_records`;
* `src/crawler/endpoint_manager.py` — `EndpointManager` (singleton
  construction, `add_endpoint`, `update_endpoint`, `get_endpoint`,
  `set_nested_field`, `validate_url_health`);
* `src/crawler/main.py` — `FetchResults`.

XML documents are modelled as finite labelled trees with optional text
(`XmlTree`), Python values as the `PyVal` inductive (dicts are ordered
association lists, mirroring Python's insertion-ordered `dict`).  The
network is modelled as an explicit environment: a list of per-fetch
outcomes for the pagination loops, a function from URL to response for the
health probe.  Fallible paths are explicit (`Option` / dedicated result
constructors); state updates are explicit state passing.
-/

/-! ## XML document model

`xml.etree.ElementTree` elements: a tag, an optional text node, and an
ordered list of children.  Namespace-qualified tags such as
`{http://www.openarchives.org/OAI/2.0/}ListRecords` are modelled by their
local name (`"ListRecords"`, `"record"`, `"resumptionToken"`, `"error"`),
since every `find`/`findall` in the source resolves its prefix to that one
OAI namespace. -/

inductive XmlTree where
  | elem (tag : String) (text : Option String) (children : List XmlTree)
  deriving Repr

def XmlTree.tag : XmlTree → String
  | .elem t _ _ => t

def XmlTree.text : XmlTree → Option String
  | .elem _ tx _ => tx

def XmlTree.children : XmlTree → List XmlTree
  | .elem _ _ cs => cs

/-- `ElementTree.find('.//name')`: first descendant (document order, self
excluded) whose tag is `name`, searching the given child list. -/
def findDescList : List XmlTree → String → Option XmlTree
  | [], _ => none
  | XmlTree.elem t tx cs :: rest, name =>
      if t == name then some (XmlTree.elem t tx cs)
      else
        match findDescList cs name with
        | some r => some r
        | none => findDescList rest name

/-- `ElementTree.find('name')`: first direct child whose tag is `name`. -/
def findChild (t : XmlTree) (name : String) : Option XmlTree :=
  t.children.find? (fun c => c.tag == name)

/-! ## Crawler pagination client (`src/crawler/dspace_client.py`) -/

/-- Outcome of one HTTP fetch as seen by the pagination loop:
`err` models a raised `requests.RequestException` (connection failure,
timeout, or non-2xx via `raise_for_status`); `ok doc?` models a 200
response whose body parses to `doc?` (`none` when `ET.fromstring` raises
`ParseError`). -/
inductive HttpResult where
  | err
  | ok (doc? : Option XmlTree)

/-- Python truthiness of an optional string (`None` and `""` are falsy). -/
def truthyS : Option String → Bool
  | some s => s ≠ ""
  | none => false

/-- `DSpaceClient.parse_resumption_token`: returns
`(has_more, next_token, error_message)`.  An unparsable body yields an
`"XML parse error: …"` message; a response carrying an `error` element
yields that element's text (which may be `None`); otherwise a
`resumptionToken` element with truthy text yields `(True, token, None)`,
and anything else yields `(False, None, None)`. -/
def parse_resumption_token (doc? : Option XmlTree) :
    Bool × Option String × Option String :=
  match doc? with
  | none => (false, none, some "XML parse error")
  | some root =>
    match findDescList root.children "error" with
    | some e => (false, none, e.text)
    | none =>
      match findDescList root.children "resumptionToken" with
      | some rt =>
        match rt.text with
        | some t => if t ≠ "" then (true, some t, none) else (false, none, none)
        | none => (false, none, none)
      | none => (false, none, none)

/-- Which `break` the `get_all_records_paginated` loop exited through:
the OAI-PMH `error` branch, the no-more-pages branch, the `max_pages`
branch, or the `requests.RequestException` handler. -/
inductive ExitStatus where
  | failedError
  | done
  | truncated
  | transportFail
  deriving DecidableEq, Repr

/-- Result of the pagination loop: the accumulated page list
(`all_xml_responses`, here the parsed documents — only parsable pages are
ever appended), the exit branch, the final `page_count`, and the number of
fetches performed (loop iterations, i.e. environment entries consumed). -/
structure PagOut where
  pages : List XmlTree
  status : ExitStatus
  page_count : Nat
  fetches : Nat

/-- The `while True` loop of `DSpaceClient.get_all_records_paginated`,
driven by the list of per-fetch outcomes `env` (entry `i` is what the
`i`-th HTTP request does).  Returns `none` when the loop would need a
fetch beyond the supplied environment.  Mirrors the source order exactly:
break on a truthy `error`, append the page, break when `has_more`/token is
falsy, break on the page cap (`max_pages` truthy and reached), else loop
with the new token. -/
def get_all_records_paginated :
    List HttpResult → Option Nat → Nat → Nat → List XmlTree → Option PagOut
  | [], _, _, _, _ => none
  | HttpResult.err :: _, _, pc, fc, acc =>
      some ⟨acc, .transportFail, pc, fc + 1⟩
  | HttpResult.ok doc? :: rest, maxPages, pc, fc, acc =>
    let pr := parse_resumption_token doc?
    if truthyS pr.2.2 then some ⟨acc, .failedError, pc, fc + 1⟩
    else
      match doc? with
      | none =>
          -- unreachable: an unparsable body always carries a truthy error
          some ⟨acc, .failedError, pc, fc + 1⟩
      | some d =>
        let acc' := acc ++ [d]
        let pc' := pc + 1
        if !pr.1 || !truthyS pr.2.1 then some ⟨acc', .done, pc', fc + 1⟩
        else
          match maxPages with
          | some m =>
              if m ≠ 0 && decide (pc' ≥ m) then
                some ⟨acc', .truncated, pc', fc + 1⟩
              else get_all_records_paginated rest (some m) pc' (fc + 1) acc'
          | none => get_all_records_paginated rest none pc' (fc + 1) acc'

/-- `get_all_records_paginated` as called from the top (first page: no
token, `page_count = 0`). -/
def run_paginated (env : List HttpResult) (maxPages : Option Nat) : Option PagOut :=
  get_all_records_paginated env maxPages 0 0 []

/-- The response contains a server `error` element (anywhere below the
root, as `find('.//error')` searches). -/
def hasErrorElem (d : XmlTree) : Bool :=
  (findDescList d.children "error").isSome

/-- The response carries a `resumptionToken` element with truthy text. -/
def tokenTruthy (d : XmlTree) : Bool :=
  match findDescList d.children "resumptionToken" with
  | some rt =>
    match rt.text with
    | some t => t ≠ ""
    | none => false
  | none => false

/-- A page on which the fetch step continues: parses, no server error
element, non-empty resumption token. -/
def ContinuePage (d : XmlTree) : Prop :=
  hasErrorElem d = false ∧ tokenTruthy d = true

/-- A page on which the fetch step completes normally: parses, no server
error element, empty or absent resumption token. -/
def TerminalPage (d : XmlTree) : Prop :=
  hasErrorElem d = false ∧ tokenTruthy d = false

/-- A fetch outcome on which the session fails: the body is unparsable, or
it contains a server `error` element. -/
def FailingFetch : HttpResult → Prop
  | .err => False
  | .ok none => True
  | .ok (some d) => hasErrorElem d = true

/-- The page cap does not cut the run before `n` appended pages:
`max_pages` is absent or falsy (`0`), or more than `n` pages fit. -/
def capAllows (maxPages : Option Nat) (n : Nat) : Prop :=
  match maxPages with
  | some m => m = 0 ∨ n < m
  | none => True

theorem capAllows_mono {maxPages : Option Nat} {n k : Nat}
    (h : capAllows maxPages n) (hk : k ≤ n) : capAllows maxPages k := by
  rcases maxPages with _ | m
  · trivial
  · rcases h with h0 | hlt
    · exact Or.inl h0
    · exact Or.inr (by omega)

theorem capAllows_none (n : Nat) : capAllows none n := trivial

theorem parse_of_continue {d : XmlTree} (h : ContinuePage d) :
    ∃ t, t ≠ "" ∧ parse_resumption_token (some d) = (true, some t, none) := by
  obtain ⟨herr, htok⟩ := h
  unfold hasErrorElem at herr
  unfold tokenTruthy at htok
  cases hfe : findDescList d.children "error" with
  | some e => rw [hfe] at herr; simp at herr
  | none =>
    cases hft : findDescList d.children "resumptionToken" with
    | none => rw [hft] at htok; simp at htok
    | some rt =>
      simp only [hft] at htok
      cases hx : rt.text with
      | none =>
        simp only [hx] at htok
        exact absurd htok Bool.false_ne_true
      | some t =>
        simp only [hx, ne_eq, decide_not, Bool.not_eq_true',
          decide_eq_false_iff_not, not_not] at htok
        refine ⟨t, htok, ?_⟩
        simp [parse_resumption_token, hfe, hft, hx, htok]

theorem parse_of_terminal {d : XmlTree} (h : TerminalPage d) :
    parse_resumption_token (some d) = (false, none, none) := by
  obtain ⟨herr, htok⟩ := h
  unfold hasErrorElem at herr
  unfold tokenTruthy at htok
  cases hfe : findDescList d.children "error" with
  | some e => rw [hfe] at herr; simp at herr
  | none =>
    cases hft : findDescList d.children "resumptionToken" with
    | none => simp [parse_resumption_token, hfe, hft]
    | some rt =>
      simp only [hft] at htok
      cases hx : rt.text with
      | none => simp [parse_resumption_token, hfe, hft, hx]
      | some t =>
        simp only [hx] at htok
        have ht : t = "" := by simpa using htok
        simp [parse_resumption_token, hfe, hft, hx, ht]

theorem parse_of_error {d : XmlTree} (h : hasErrorElem d = true) :
    ∃ e, findDescList d.children "error" = some e ∧
      parse_resumption_token (some d) = (false, none, e.text) := by
  unfold hasErrorElem at h
  cases hfe : findDescList d.children "error" with
  | none => rw [hfe] at h; simp at h
  | some e => exact ⟨e, rfl, by simp [parse_resumption_token, hfe]⟩

/-- One loop iteration on a continuing page: the page is appended and the
loop goes on, provided the cap does not strike here. -/
theorem paginate_step_continue {d : XmlTree} {rest : List HttpResult}
    {maxPages : Option Nat} {pc fc : Nat} {acc : List XmlTree}
    (hd : ContinuePage d) (hcap : capAllows maxPages (pc + 1)) :
    get_all_records_paginated (HttpResult.ok (some d) :: rest) maxPages pc fc acc =
      get_all_records_paginated rest maxPages (pc + 1) (fc + 1) (acc ++ [d]) := by
  obtain ⟨t, ht, hparse⟩ := parse_of_continue hd
  rcases maxPages with _ | m
  · simp [get_all_records_paginated, hparse, truthyS, ht]
  · rcases hcap with h0 | hlt
    · subst h0
      simp [get_all_records_paginated, hparse, truthyS, ht]
    · have hge : ¬ (pc + 1 ≥ m) := by omega
      simp [get_all_records_paginated, hparse, truthyS, ht, hge]

/-- One loop iteration on a terminal page: the page is appended and the
loop exits through the normal-completion branch. -/
theorem paginate_step_terminal {d : XmlTree} {rest : List HttpResult}
    {maxPages : Option Nat} {pc fc : Nat} {acc : List XmlTree}
    (hd : TerminalPage d) :
    get_all_records_paginated (HttpResult.ok (some d) :: rest) maxPages pc fc acc =
      some ⟨acc ++ [d], .done, pc + 1, fc + 1⟩ := by
  have hparse := parse_of_terminal hd
  simp [get_all_records_paginated, hparse, truthyS]

/-- One loop iteration on a failing fetch (unparsable body or server
`error` element): the loop exits after this single fetch, and the
accumulated pages survive as a prefix of the result. -/
theorem paginate_step_failing {r : HttpResult} {rest : List HttpResult}
    {maxPages : Option Nat} {pc fc : Nat} {acc : List XmlTree}
    (hr : FailingFetch r) :
    ∃ out, get_all_records_paginated (r :: rest) maxPages pc fc acc = some out ∧
      out.fetches = fc + 1 ∧ (out.pages = acc ∨ ∃ d, out.pages = acc ++ [d]) := by
  match r with
  | HttpResult.err => exact absurd hr (by simp [FailingFetch])
  | HttpResult.ok none =>
      refine ⟨⟨acc, .failedError, pc, fc + 1⟩, ?_, rfl, Or.inl rfl⟩
      simp [get_all_records_paginated, parse_resumption_token, truthyS]
  | HttpResult.ok (some d) =>
      obtain ⟨e, _, hparse⟩ := parse_of_error hr
      cases htt : truthyS e.text with
      | true =>
          refine ⟨⟨acc, .failedError, pc, fc + 1⟩, ?_, rfl, Or.inl rfl⟩
          simp [get_all_records_paginated, hparse, htt]
      | false =>
          refine ⟨⟨acc ++ [d], .done, pc + 1, fc + 1⟩, ?_, rfl, Or.inr ⟨d, rfl⟩⟩
          simp [get_all_records_paginated, hparse, htt]

/-- Running the loop through a block of continuing pages appends them all
and consumes exactly one fetch per page, provided the cap does not strike
inside the block. -/
theorem paginate_through_good (docs : List XmlTree) :
    ∀ (tail : List HttpResult) (maxPages : Option Nat) (pc fc : Nat)
      (acc : List XmlTree),
      (∀ d ∈ docs, ContinuePage d) →
      capAllows maxPages (pc + docs.length) →
      get_all_records_paginated
          (docs.map (fun d => HttpResult.ok (some d)) ++ tail) maxPages pc fc acc =
        get_all_records_paginated tail maxPages (pc + docs.length)
          (fc + docs.length) (acc ++ docs) := by
  induction docs with
  | nil => intro tail maxPages pc fc acc _ _; simp
  | cons d ds ih =>
    intro tail maxPages pc fc acc hgood hcap
    have hcap1 : capAllows maxPages (pc + 1) :=
      capAllows_mono hcap (by simp only [List.length_cons]; omega)
    simp only [List.map_cons, List.cons_append]
    rw [paginate_step_continue (hgood d (by simp)) hcap1]
    rw [ih tail maxPages (pc + 1) (fc + 1) (acc ++ [d])
      (fun x hx => hgood x (by simp [hx]))
      (capAllows_mono hcap (by simp only [List.length_cons]; omega))]
    have h1 : pc + 1 + ds.length = pc + (d :: ds).length := by
      simp only [List.length_cons]; omega
    have h2 : fc + 1 + ds.length = fc + (d :: ds).length := by
      simp only [List.length_cons]; omega
    have h3 : (acc ++ [d]) ++ ds = acc ++ d :: ds := by simp
    rw [h1, h2, h3]

/-- A fetch outcome that is per-page fatal in the session's error
taxonomy: a raised transport error, an unparsable body, or a server
`error` element with truthy text (the loop's `if result['error']`
branch). -/
def FatalFetch : HttpResult → Prop
  | .err => True
  | .ok none => True
  | .ok (some d) => ∃ e, findDescList d.children "error" = some e ∧ truthyS e.text = true

/-- One loop iteration on a fatal fetch: the loop exits with exactly the
previously accumulated pages. -/
theorem paginate_step_fatal {r : HttpResult} {rest : List HttpResult}
    {maxPages : Option Nat} {pc fc : Nat} {acc : List XmlTree}
    (hr : FatalFetch r) :
    ∃ st, get_all_records_paginated (r :: rest) maxPages pc fc acc =
      some ⟨acc, st, pc, fc + 1⟩ := by
  match r with
  | HttpResult.err =>
      exact ⟨.transportFail, by simp [get_all_records_paginated]⟩
  | HttpResult.ok none =>
      exact ⟨.failedError, by
        simp [get_all_records_paginated, parse_resumption_token, truthyS]⟩
  | HttpResult.ok (some d) =>
      obtain ⟨e, hfe, htt⟩ := hr
      refine ⟨.failedError, ?_⟩
      have hparse : parse_resumption_token (some d) = (false, none, e.text) := by
        simp [parse_resumption_token, hfe]
      simp [get_all_records_paginated, hparse, htt]

/-! ### Sample OAI-PMH responses used by the witnesses -/

/-- A bare `record` element. -/
def wRecord : XmlTree := .elem "record" none []

/-- A first page carrying one record and resumption token `"tok-1"`. -/
def wPage1 : XmlTree :=
  .elem "OAI-PMH" none
    [.elem "ListRecords" none [wRecord, .elem "resumptionToken" (some "tok-1") []]]

/-- A last page carrying one record and no resumption token. -/
def wPage2 : XmlTree :=
  .elem "OAI-PMH" none [.elem "ListRecords" none [wRecord]]

/-- A server error response (`badArgument`). -/
def wErrPage : XmlTree :=
  .elem "OAI-PMH" none [.elem "error" (some "badArgument") []]

/-- **C1.** For every harvest session and every failing fetch, all pages
fetched before the failure are preserved: if the responses for fetches
`1..k-1` are continuing pages and fetch `k` returns a response containing
a server `error` element (or an unparsable one), the loop stops after
exactly `k` fetches — whatever comes later in the environment — and the
first `k-1` entries of the returned page list are pages `1..k-1` in
order (here `k = goodDocs.length + 1`, so every `k ≥ 1` is covered). -/
theorem c1_failure_preserves_prior_pages
    (goodDocs : List XmlTree) (bad : HttpResult) (rest : List HttpResult)
    (maxPages : Option Nat)
    (hgood : ∀ d ∈ goodDocs, ContinuePage d)
    (hbad : FailingFetch bad)
    (hcap : capAllows maxPages goodDocs.length) :
    ∃ out,
      run_paginated
          (goodDocs.map (fun d => HttpResult.ok (some d)) ++ bad :: rest)
          maxPages = some out ∧
      out.fetches = goodDocs.length + 1 ∧
      out.pages.take goodDocs.length = goodDocs := by
  unfold run_paginated
  rw [paginate_through_good goodDocs (bad :: rest) maxPages 0 0 [] hgood
    (by simpa using hcap)]
  obtain ⟨out, hout, hfc, hpages⟩ :=
    @paginate_step_failing bad rest maxPages (0 + goodDocs.length)
      (0 + goodDocs.length) ([] ++ goodDocs) hbad
  refine ⟨out, hout, by omega, ?_⟩
  rcases hpages with h | ⟨d, h⟩
  · rw [h]; simp
  · rw [h]; simp [List.take_left']

/-- The sample first page is a continuing page. -/
theorem wPage1_continue : ContinuePage wPage1 := by
  have h1 : findDescList (XmlTree.children wPage1) "error" = none := by
    simp [wPage1, wRecord, findDescList, XmlTree.children]
  have h2 : findDescList (XmlTree.children wPage1) "resumptionToken" =
      some (XmlTree.elem "resumptionToken" (some "tok-1") []) := by
    simp [wPage1, wRecord, findDescList, XmlTree.children]
  constructor
  · rw [hasErrorElem, h1]; rfl
  · rw [tokenTruthy, h2]; simp [XmlTree.text]

/-- The sample last page is a terminal page. -/
theorem wPage2_terminal : TerminalPage wPage2 := by
  have h1 : findDescList (XmlTree.children wPage2) "error" = none := by
    simp [wPage2, wRecord, findDescList, XmlTree.children]
  have h2 : findDescList (XmlTree.children wPage2) "resumptionToken" = none := by
    simp [wPage2, wRecord, findDescList, XmlTree.children]
  constructor
  · rw [hasErrorElem, h1]; rfl
  · rw [tokenTruthy, h2]

/-- The sample error page carries a server `error` element. -/
theorem wErrPage_hasError : hasErrorElem wErrPage = true := by
  have h1 : findDescList (XmlTree.children wErrPage) "error" =
      some (XmlTree.elem "error" (some "badArgument") []) := by
    simp [wErrPage, findDescList, XmlTree.children]
  rw [hasErrorElem, h1]; rfl

/-- Witness for C1: one continuing page, then a server-error page; the
session stops after 2 fetches with page 1 preserved. -/
theorem c1_witness :
    ∃ out,
      run_paginated
          ([wPage1].map (fun d => HttpResult.ok (some d)) ++
            HttpResult.ok (some wErrPage) :: [])
          none = some out ∧
      out.fetches = [wPage1].length + 1 ∧
      out.pages.take [wPage1].length = [wPage1] :=
  c1_failure_preserves_prior_pages [wPage1] (HttpResult.ok (some wErrPage)) []
    none
    (by intro d hd; simp only [List.mem_singleton] at hd; subst hd
        exact wPage1_continue)
    wErrPage_hasError
    trivial

/-- **C2.** For every response sequence in which pages `1..N-1` are
continuing pages (no server error, non-empty resumption token) and page
`N` is a terminal page (no server error, empty or absent token), the loop
performs exactly `N` fetches, appends the `N` pages in order, and exits
through the normal-completion (`DONE`) branch — not the error, transport
or cap branch (here `N = goodDocs.length + 1`). -/
theorem c2_token_sequence_terminates_done
    (goodDocs : List XmlTree) (lastDoc : XmlTree) (tail : List HttpResult)
    (maxPages : Option Nat)
    (hgood : ∀ d ∈ goodDocs, ContinuePage d)
    (hlast : TerminalPage lastDoc)
    (hcap : capAllows maxPages goodDocs.length) :
    run_paginated
        ((goodDocs ++ [lastDoc]).map (fun d => HttpResult.ok (some d)) ++ tail)
        maxPages =
      some ⟨goodDocs ++ [lastDoc], .done, goodDocs.length + 1,
        goodDocs.length + 1⟩ := by
  unfold run_paginated
  simp only [List.map_append, List.map_cons, List.map_nil, List.append_assoc,
    List.singleton_append]
  rw [paginate_through_good goodDocs (HttpResult.ok (some lastDoc) :: tail)
    maxPages 0 0 [] hgood (by simpa using hcap)]
  rw [paginate_step_terminal hlast]
  simp

/-- Witness for C2: a continuing page then a terminal page give exactly 2
fetches, both pages in order, DONE. -/
theorem c2_witness :
    run_paginated
        (([wPage1] ++ [wPage2]).map (fun d => HttpResult.ok (some d)) ++ [])
        none =
      some ⟨[wPage1] ++ [wPage2], .done, [wPage1].length + 1,
        [wPage1].length + 1⟩ :=
  c2_token_sequence_terminates_done [wPage1] wPage2 [] none
    (by intro d hd; simp only [List.mem_singleton] at hd; subst hd
        exact wPage1_continue)
    wPage2_terminal
    trivial

/-! ## Per-run report of `DSpaceClient.get_records_xml`
(`src/crawler/dspace_client.py`, lines 243–339)

The method runs the pagination loop, and returns either the
`{'success': False, 'message': 'No data retrieved', 'files_created': 0}`
dictionary when the loop produced no pages at all, or the
`{'success': True, 'total_pages': …, 'files': …}` dictionary after writing
one `page_{i:03d}.xml` file per page.  Fields that are constant for a
given endpoint and run (endpoint name, output directory, metadata-file
path) are elided; the per-run report below keeps exactly the
run-dependent content of the returned dictionary, and the written files
(filename, page) are returned alongside it. -/

/-- `f"{i:03d}"`. -/
def pad3 (i : Nat) : String :=
  if i < 10 then "00" ++ toString i
  else if i < 100 then "0" ++ toString i
  else toString i

/-- `f"page_{i:03d}.xml"`. -/
def page_filename (i : Nat) : String := "page_" ++ pad3 i ++ ".xml"

/-- `enumerate(all_xml_responses, 1)` paired with the derived filename. -/
def enumFiles : Nat → List XmlTree → List (String × XmlTree)
  | _, [] => []
  | i, p :: ps => (page_filename i, p) :: enumFiles (i + 1) ps

theorem enumFiles_map_snd : ∀ (i : Nat) (l : List XmlTree),
    (enumFiles i l).map Prod.snd = l := by
  intro i l
  induction l generalizing i with
  | nil => rfl
  | cons p ps ih => simp [enumFiles, ih]

theorem enumFiles_map_fst_congr : ∀ (i : Nat) (l1 l2 : List XmlTree),
    l1.length = l2.length →
    (enumFiles i l1).map Prod.fst = (enumFiles i l2).map Prod.fst := by
  intro i l1
  induction l1 generalizing i with
  | nil =>
    intro l2 h
    cases l2 with
    | nil => rfl
    | cons b bs => simp at h
  | cons a as ih =>
    intro l2 h
    cases l2 with
    | nil => simp at h
    | cons b bs =>
      simp only [enumFiles, List.map_cons]
      rw [ih (i + 1) bs (by simpa using h)]

/-- The run-dependent content of the dictionary `get_records_xml`
returns: the zero-pages shape (`success: False`, message
`'No data retrieved'`) or the pages-written shape (`success: True`, total
page count, created-file list). -/
inductive XmlRunReport where
  | noData
  | completed (total_pages : Nat) (files : List String)
  deriving DecidableEq, Repr

/-- `DSpaceClient.get_records_xml`: run the pagination loop, then report.
Returns the report together with the files written (filename, content). -/
def get_records_xml (env : List HttpResult) (maxPages : Option Nat) :
    Option (XmlRunReport × List (String × XmlTree)) :=
  match run_paginated env maxPages with
  | none => none
  | some out =>
    if out.pages.isEmpty then some (.noData, [])
    else
      some (.completed out.pages.length ((enumFiles 1 out.pages).map Prod.fst),
        enumFiles 1 out.pages)

/-- Unfolding lemma for `get_records_xml` once the loop's result is
known (kept generic so no concrete reduction of the loop is attempted). -/
theorem get_records_xml_eq (env : List HttpResult) (maxPages : Option Nat)
    (out : PagOut) (h : run_paginated env maxPages = some out) :
    get_records_xml env maxPages =
      if out.pages.isEmpty then some (.noData, [])
      else
        some (.completed out.pages.length
            ((enumFiles 1 out.pages).map Prod.fst),
          enumFiles 1 out.pages) := by
  unfold get_records_xml
  rw [h]

/-- Exact evaluation of one loop iteration on a server-error page with
truthy error text. -/
theorem paginate_step_server_error {d e : XmlTree} {rest : List HttpResult}
    {maxPages : Option Nat} {pc fc : Nat} {acc : List XmlTree}
    (hfe : findDescList d.children "error" = some e)
    (htt : truthyS e.text = true) :
    get_all_records_paginated (HttpResult.ok (some d) :: rest) maxPages pc fc acc =
      some ⟨acc, .failedError, pc, fc + 1⟩ := by
  have hparse : parse_resumption_token (some d) = (false, none, e.text) := by
    simp [parse_resumption_token, hfe]
  simp [get_all_records_paginated, hparse, htt]

/-- **C3 (counterexample).** The claim says empty, partial and full
success are pairwise distinguishable in the returned result.  But a run
that fails on fetch 2 after one page (a `FAILED` session) and a run that
completes normally with one page (a `DONE` session) return the same
report — `success: True, total_pages: 1, files: ['page_001.xml']` — so a
partial outcome is not distinguishable from full success. -/
theorem c3_counterexample :
    (get_records_xml
        [HttpResult.ok (some wPage1), HttpResult.ok (some wErrPage)] none).map
        Prod.fst =
      (get_records_xml [HttpResult.ok (some wPage2)] none).map Prod.fst ∧
    (run_paginated
        [HttpResult.ok (some wPage1), HttpResult.ok (some wErrPage)] none).map
        PagOut.status = some ExitStatus.failedError ∧
    (run_paginated [HttpResult.ok (some wPage2)] none).map PagOut.status =
      some ExitStatus.done := by
  have hfe : findDescList wErrPage.children "error" =
      some (XmlTree.elem "error" (some "badArgument") []) := by
    simp [wErrPage, findDescList, XmlTree.children]
  have h1 : run_paginated
      [HttpResult.ok (some wPage1), HttpResult.ok (some wErrPage)] none =
      some ⟨[wPage1], .failedError, 1, 2⟩ := by
    unfold run_paginated
    rw [paginate_step_continue wPage1_continue (capAllows_none 1)]
    rw [paginate_step_server_error hfe rfl]
    rfl
  have h2 : run_paginated [HttpResult.ok (some wPage2)] none =
      some ⟨[wPage2], .done, 1, 1⟩ := by
    unfold run_paginated
    rw [paginate_step_terminal wPage2_terminal]
    rfl
  refine ⟨?_, ?_, ?_⟩
  · rw [get_records_xml_eq _ _ _ h1, get_records_xml_eq _ _ _ h2]
    simp only [List.isEmpty_cons, Bool.false_eq_true, if_false,
      Option.map_some', List.length_singleton]
    rw [enumFiles_map_fst_congr 1 [wPage1] [wPage2] rfl]
  · rw [h1]; rfl
  · rw [h2]; rfl

/-- **C3 (amended).** A session whose pagination loop retrieves zero
pages reports the distinct empty outcome (`success: False`,
`'No data retrieved'`), which differs from every pages-written report; a
session that fails fatally after `k-1 ≥ 1` pages reports a result whose
written files contain exactly the pages fetched before the failure — but
that result is the ordinary `success: True` shape, not a distinct
"partial" one (see the counterexample). -/
theorem c3_empty_outcome_and_preservation
    (goodDocs : List XmlTree) (bad : HttpResult) (rest : List HttpResult)
    (maxPages : Option Nat)
    (hgood : ∀ d ∈ goodDocs, ContinuePage d)
    (hbad : FatalFetch bad)
    (hcap : capAllows maxPages goodDocs.length) :
    (goodDocs = [] →
      get_records_xml
          (goodDocs.map (fun d => HttpResult.ok (some d)) ++ bad :: rest)
          maxPages = some (.noData, [])) ∧
    (goodDocs ≠ [] →
      get_records_xml
          (goodDocs.map (fun d => HttpResult.ok (some d)) ++ bad :: rest)
          maxPages =
        some (.completed goodDocs.length ((enumFiles 1 goodDocs).map Prod.fst),
          enumFiles 1 goodDocs) ∧
      (enumFiles 1 goodDocs).map Prod.snd = goodDocs) ∧
    (∀ n files, XmlRunReport.noData ≠ XmlRunReport.completed n files) := by
  obtain ⟨st, hst⟩ :=
    @paginate_step_fatal bad rest maxPages (0 + goodDocs.length)
      (0 + goodDocs.length) ([] ++ goodDocs) hbad
  have hrun : run_paginated
      (goodDocs.map (fun d => HttpResult.ok (some d)) ++ bad :: rest) maxPages =
      some ⟨goodDocs, st, goodDocs.length, goodDocs.length + 1⟩ := by
    unfold run_paginated
    rw [paginate_through_good goodDocs (bad :: rest) maxPages 0 0 [] hgood
      (by simpa using hcap)]
    simpa using hst
  refine ⟨?_, ?_, by intro n files h; cases h⟩
  · intro hnil
    subst hnil
    rw [get_records_xml_eq _ _ _ hrun]
    rfl
  · intro hne
    refine ⟨?_, enumFiles_map_snd 1 goodDocs⟩
    rw [get_records_xml_eq _ _ _ hrun]
    have hempty : goodDocs.isEmpty = false := by
      cases goodDocs with
      | nil => exact absurd rfl hne
      | cons a l => rfl
    simp [hempty]

/-- Witness for the amended C3: a continuing page then a fatal
server-error fetch yield the `success: True` report with the one fetched
page preserved in the written files. -/
theorem c3_witness :
    ([wPage1] = [] →
      get_records_xml
          ([wPage1].map (fun d => HttpResult.ok (some d)) ++
            HttpResult.ok (some wErrPage) :: [])
          none = some (.noData, [])) ∧
    ([wPage1] ≠ [] →
      get_records_xml
          ([wPage1].map (fun d => HttpResult.ok (some d)) ++
            HttpResult.ok (some wErrPage) :: [])
          none =
        some (.completed [wPage1].length ((enumFiles 1 [wPage1]).map Prod.fst),
          enumFiles 1 [wPage1]) ∧
      (enumFiles 1 [wPage1]).map Prod.snd = [wPage1]) ∧
    (∀ n files, XmlRunReport.noData ≠ XmlRunReport.completed n files) :=
  c3_empty_outcome_and_preservation [wPage1] (HttpResult.ok (some wErrPage)) []
    none
    (by intro d hd; simp only [List.mem_singleton] at hd; subst hd
        exact wPage1_continue)
    ⟨XmlTree.elem "error" (some "badArgument") [],
      by simp [wErrPage, findDescList, XmlTree.children], rfl⟩
    trivial

/-! ## Merging client (`src/dspace_client.py`, `DSpaceClient.get_records`)

One in-memory accumulator tree is seeded from page 1; each later page
contributes only its `record` elements; every iteration strips the
`resumptionToken` children of the accumulated `ListRecords` node (the
node aliased by `accumulated_list_records`, i.e. the first direct
`ListRecords` child of the accumulated root). -/

/-- `str.strip()` on the code-point sequence (Python semantics; the
UTF-8 byte positions of the runtime are an implementation detail). -/
def pyStrip (s : String) : String :=
  String.mk (((s.data.dropWhile Char.isWhitespace).reverse.dropWhile
    Char.isWhitespace).reverse)

/-- `list_records.findall('oai:record')`: the `record` direct children. -/
def recordsOf (lr : XmlTree) : List XmlTree :=
  lr.children.filter (fun c => c.tag == "record")

/-- The `findall('oai:resumptionToken')` + `remove` loop: drop all direct
`resumptionToken` children. -/
def stripTokens (lr : XmlTree) : XmlTree :=
  .elem lr.tag lr.text (lr.children.filter (fun c => c.tag != "resumptionToken"))

/-- `accumulated_list_records.append(record)` for each record. -/
def appendRecords (lr : XmlTree) (recs : List XmlTree) : XmlTree :=
  .elem lr.tag lr.text (lr.children ++ recs)

/-- Apply `f` to the first `ListRecords`-tagged element of the list. -/
def mapFirstLRGo (f : XmlTree → XmlTree) : List XmlTree → List XmlTree
  | [] => []
  | c :: rest =>
      if c.tag == "ListRecords" then f c :: rest else c :: mapFirstLRGo f rest

/-- Apply `f` to the first direct `ListRecords` child — the node the
source aliases as `accumulated_list_records`. -/
def mapFirstLR (root : XmlTree) (f : XmlTree → XmlTree) : XmlTree :=
  .elem root.tag root.text (mapFirstLRGo f root.children)

/-- `resumption_elem = list_records.find('oai:resumptionToken')`;
`if resumption_elem is not None and resumption_elem.text:
resumption_token = resumption_elem.text.strip() or None`. -/
def tokenOf (lr : XmlTree) : Option String :=
  match findChild lr "resumptionToken" with
  | some e =>
    match e.text with
    | some t =>
        if t = "" then none
        else if pyStrip t = "" then none else some (pyStrip t)
    | none => none
  | none => none

/-- The shapes `DSpaceClient.get_records` can return: a propagated
`requests` exception, the parse-error dictionary, the no-`ListRecords`
early return, or the final merged document. -/
inductive MergeResult where
  | raised
  | parseError
  | noListRecords
  | merged (doc : XmlTree)

/-- The `while True` loop of the merging `get_records`, driven by the
per-fetch environment; the accumulator is `none` before page 1
(`accumulated_root is None`).  Mirrors the source order: parse, find
`ListRecords` (direct child), capture the token, seed or transplant the
`record` children, strip the token children of the accumulated
`ListRecords` node, and loop while the captured token is truthy. -/
def get_records : List HttpResult → Option XmlTree → Option MergeResult
  | [], _ => none
  | HttpResult.err :: _, _ => some .raised
  | HttpResult.ok none :: _, _ => some .parseError
  | HttpResult.ok (some root) :: rest, acc? =>
    match findChild root "ListRecords" with
    | none => some .noListRecords
    | some lr =>
      let tok := tokenOf lr
      let acc1 :=
        match acc? with
        | none => root
        | some acc => mapFirstLR acc (fun alr => appendRecords alr (recordsOf lr))
      let acc2 := mapFirstLR acc1 stripTokens
      match tok with
      | none => some (.merged acc2)
      | some _ => get_records rest (some acc2)

/-- No element of the list, at any depth, is tagged `resumptionToken`. -/
def noTokList : List XmlTree → Bool
  | [] => true
  | XmlTree.elem t _ cs :: rest =>
      t != "resumptionToken" && noTokList cs && noTokList rest

/-- No element of the tree, at any depth, is tagged `resumptionToken`. -/
def noTok (c : XmlTree) : Bool := noTokList [c]

/-- Number of `record` direct children. -/
def recCount (l : List XmlTree) : Nat :=
  (l.filter (fun c => c.tag == "record")).length

/-- The record count at the protocol position of a merged document: the
`record` children of its (first) `ListRecords` child. -/
def mergedRecCount (doc : XmlTree) : Nat :=
  match findChild doc "ListRecords" with
  | some lr => recCount lr.children
  | none => 0

/-- An abstract OAI-PMH `ListRecords` page: root tag/text, the children
before the `ListRecords` node, the `ListRecords` node's text and
children, and the children after it. -/
structure OaiPage where
  rootTag : String
  rootText : Option String
  pre : List XmlTree
  lrText : Option String
  lrKids : List XmlTree
  post : List XmlTree

/-- The page's `ListRecords` node. -/
def OaiPage.lr (p : OaiPage) : XmlTree := .elem "ListRecords" p.lrText p.lrKids

/-- The page's parsed document. -/
def OaiPage.doc (p : OaiPage) : XmlTree :=
  .elem p.rootTag p.rootText (p.pre ++ p.lr :: p.post)

/-- `record` count of the page. -/
def OaiPage.recs (p : OaiPage) : Nat := (recordsOf p.lr).length

/-- Well-formed OAI page: the `ListRecords` node is the first child with
that tag, and resumption-token elements occur only as direct children of
it (as the OAI-PMH schema prescribes). -/
def OaiPage.wf (p : OaiPage) : Prop :=
  p.rootTag ≠ "resumptionToken" ∧
  (∀ c ∈ p.pre, c.tag ≠ "ListRecords") ∧
  noTokList p.pre = true ∧ noTokList p.post = true ∧
  (∀ c ∈ p.lrKids, c.tag = "resumptionToken" ∨ noTok c = true)

theorem noTokList_cons (c : XmlTree) (rest : List XmlTree) :
    noTokList (c :: rest) = (noTok c && noTokList rest) := by
  cases c with
  | elem t tx cs => simp [noTok, noTokList, Bool.and_assoc]

theorem noTok_elem (t : String) (tx : Option String) (cs : List XmlTree) :
    noTok (XmlTree.elem t tx cs) = (t != "resumptionToken" && noTokList cs) := by
  simp [noTok, noTokList]

theorem noTokList_append (l1 l2 : List XmlTree) :
    noTokList (l1 ++ l2) = (noTokList l1 && noTokList l2) := by
  induction l1 with
  | nil => simp [noTokList]
  | cons c rest ih =>
    cases c with
    | elem t tx cs => simp [noTokList, ih, Bool.and_assoc]

theorem noTokList_eq_all (l : List XmlTree) :
    noTokList l = true ↔ ∀ c ∈ l, noTok c = true := by
  induction l with
  | nil => simp [noTokList]
  | cons c rest ih =>
    rw [noTokList_cons, Bool.and_eq_true, ih]
    simp

theorem noTok_tag {c : XmlTree} (h : noTok c = true) :
    (c.tag != "resumptionToken") = true := by
  cases c with
  | elem t tx cs =>
    rw [noTok_elem, Bool.and_eq_true] at h
    exact h.1

theorem recCount_append (l1 l2 : List XmlTree) :
    recCount (l1 ++ l2) = recCount l1 + recCount l2 := by
  simp [recCount, List.filter_append]

theorem recCount_strip (l : List XmlTree) :
    recCount (l.filter (fun c => c.tag != "resumptionToken")) = recCount l := by
  induction l with
  | nil => rfl
  | cons c rest ih =>
    by_cases hc : c.tag = "record"
    · have h1 : (c.tag == "record") = true := by simp [hc]
      have h2 : (c.tag != "resumptionToken") = true := by simp [hc]
      simp only [List.filter_cons, h2, if_true, recCount, h1] at *
      simp only [List.filter_cons, h1, if_true, List.length_cons]
      omega
    · have h1 : (c.tag == "record") = false := by simp [hc]
      by_cases ht : c.tag = "resumptionToken"
      · have h2 : (c.tag != "resumptionToken") = false := by simp [ht]
        simp only [List.filter_cons, h2, Bool.false_eq_true, if_false]
        rw [ih]
        simp only [recCount, List.filter_cons, h1, Bool.false_eq_true, if_false]
      · have h2 : (c.tag != "resumptionToken") = true := by simp [ht]
        simp only [List.filter_cons, h2, if_true]
        simp only [recCount, List.filter_cons, h1, Bool.false_eq_true,
          if_false] at *
        exact ih

theorem filter_netok_of_noTokList {l : List XmlTree} (h : noTokList l = true) :
    l.filter (fun c => c.tag != "resumptionToken") = l := by
  rw [noTokList_eq_all] at h
  rw [List.filter_eq_self]
  intro c hc
  exact noTok_tag (h c hc)

theorem recordsOf_mem_noTok {p : OaiPage} (hwf : p.wf) :
    ∀ c ∈ recordsOf p.lr, noTok c = true := by
  intro c hc
  simp only [recordsOf, OaiPage.lr, XmlTree.children, List.mem_filter] at hc
  rcases hwf.2.2.2.2 c hc.1 with htok | hnt
  · exfalso
    have h2 := hc.2
    rw [htok] at h2
    simp at h2
  · exact hnt

theorem recordsOf_noTokList {p : OaiPage} (hwf : p.wf) :
    noTokList (recordsOf p.lr) = true :=
  (noTokList_eq_all _).mpr (recordsOf_mem_noTok hwf)

theorem mapFirstLRGo_eq (f : XmlTree → XmlTree) (ltx : Option String)
    (kids : List XmlTree) :
    ∀ (pre post : List XmlTree), (∀ c ∈ pre, c.tag ≠ "ListRecords") →
    mapFirstLRGo f (pre ++ XmlTree.elem "ListRecords" ltx kids :: post) =
      pre ++ f (XmlTree.elem "ListRecords" ltx kids) :: post := by
  intro pre
  induction pre with
  | nil =>
    intro post _
    simp [mapFirstLRGo, XmlTree.tag]
  | cons c rest ih =>
    intro post hpre
    have hc : (c.tag == "ListRecords") = false := by
      simp [hpre c (by simp)]
    simp only [List.cons_append, mapFirstLRGo, hc, Bool.false_eq_true, if_false,
      List.append_eq]
    rw [ih post (fun x hx => hpre x (by simp [hx]))]

theorem mapFirstLR_eq (f : XmlTree → XmlTree) (rt : String)
    (rtx ltx : Option String) (pre kids post : List XmlTree)
    (hpre : ∀ c ∈ pre, c.tag ≠ "ListRecords") :
    mapFirstLR (.elem rt rtx (pre ++ XmlTree.elem "ListRecords" ltx kids :: post)) f =
      .elem rt rtx (pre ++ f (XmlTree.elem "ListRecords" ltx kids) :: post) := by
  unfold mapFirstLR
  simp only [XmlTree.tag, XmlTree.text, XmlTree.children]
  rw [mapFirstLRGo_eq f ltx kids pre post hpre]

theorem findChild_doc (rt : String) (rtx ltx : Option String)
    (pre kids post : List XmlTree)
    (hpre : ∀ c ∈ pre, c.tag ≠ "ListRecords") :
    findChild (.elem rt rtx (pre ++ XmlTree.elem "ListRecords" ltx kids :: post))
        "ListRecords" = some (XmlTree.elem "ListRecords" ltx kids) := by
  unfold findChild
  show List.find? _ (pre ++ _ :: post) = _
  induction pre with
  | nil => simp [List.find?, XmlTree.tag]
  | cons c rest ih =>
    have hc : (c.tag == "ListRecords") = false := by
      simp [hpre c (by simp)]
    simp only [List.cons_append, List.find?, hc]
    exact ih (fun x hx => hpre x (by simp [hx]))

/-- One iteration of the merging loop on a page whose `ListRecords` node
is its first child with that tag. -/
theorem get_records_step (p : OaiPage) (rest : List HttpResult)
    (acc? : Option XmlTree)
    (hpre : ∀ c ∈ p.pre, c.tag ≠ "ListRecords") :
    get_records (HttpResult.ok (some p.doc) :: rest) acc? =
      (let acc1 := match acc? with
        | none => p.doc
        | some acc => mapFirstLR acc (fun alr => appendRecords alr (recordsOf p.lr));
       match tokenOf p.lr with
       | none => some (.merged (mapFirstLR acc1 stripTokens))
       | some _ => get_records rest (some (mapFirstLR acc1 stripTokens))) := by
  have hf : findChild p.doc "ListRecords" = some p.lr := by
    unfold OaiPage.doc OaiPage.lr
    exact findChild_doc p.rootTag p.rootText p.lrText p.pre p.lrKids p.post hpre
  simp only [get_records, hf]

/-- `appendRecords` on an explicit element. -/
theorem appendRecords_elem (t : String) (tx : Option String)
    (cs recs : List XmlTree) :
    appendRecords (XmlTree.elem t tx cs) recs = XmlTree.elem t tx (cs ++ recs) := rfl

/-- `stripTokens` on an explicit element. -/
theorem stripTokens_elem (t : String) (tx : Option String) (cs : List XmlTree) :
    stripTokens (XmlTree.elem t tx cs) =
      XmlTree.elem t tx (cs.filter (fun c => c.tag != "resumptionToken")) := rfl

/-- The token-free kids of a well-formed page survive the strip filter
token-free. -/
theorem filtered_kids_noTokList {p : OaiPage} (hwf : p.wf) :
    noTokList (p.lrKids.filter (fun c => c.tag != "resumptionToken")) = true := by
  rw [noTokList_eq_all]
  intro c hc
  rw [List.mem_filter] at hc
  rcases hwf.2.2.2.2 c hc.1 with htok | hnt
  · exfalso
    have h2 := hc.2
    rw [htok] at h2
    simp at h2
  · exact hnt

theorem recCount_recordsOf (lr : XmlTree) :
    recCount (recordsOf lr) = (recordsOf lr).length := by
  unfold recCount recordsOf
  rw [List.filter_filter]
  congr 1
  apply List.filter_congr
  intro c _
  cases hc : (c.tag == "record") <;> simp [hc]

theorem recCount_join_recs (ps : List OaiPage) :
    recCount ((ps.map (fun p => recordsOf p.lr)).flatten) =
      (ps.map OaiPage.recs).sum := by
  induction ps with
  | nil => rfl
  | cons p rest ih =>
    simp only [List.map_cons, List.flatten_cons, recCount_append, ih,
      List.sum_cons]
    rw [recCount_recordsOf]
    rfl

theorem join_noTokList (ps : List OaiPage) (h : ∀ p ∈ ps, p.wf) :
    noTokList ((ps.map (fun p => recordsOf p.lr)).flatten) = true := by
  induction ps with
  | nil => simp [noTokList]
  | cons p rest ih =>
    simp only [List.map_cons, List.flatten_cons, noTokList_append,
      Bool.and_eq_true]
    exact ⟨recordsOf_noTokList (h p (by simp)),
      ih (fun q hq => h q (by simp [hq]))⟩

/-- Processing the remaining pages of a session from an accumulated root
whose `ListRecords` node is token-free: every page's records land at the
end of the accumulated `ListRecords` node, in order, and the result is the
single merged document. -/
theorem get_records_go (mids : List OaiPage) :
    ∀ (last : OaiPage) (tail : List HttpResult) (rt : String)
      (rtx ltx : Option String) (accPre accKids accPost : List XmlTree),
      (∀ p ∈ mids, p.wf) → (∀ p ∈ mids, (tokenOf p.lr).isSome = true) →
      last.wf → tokenOf last.lr = none →
      (∀ c ∈ accPre, c.tag ≠ "ListRecords") →
      noTokList accKids = true →
      get_records
          ((mids ++ [last]).map (fun p => HttpResult.ok (some p.doc)) ++ tail)
          (some (.elem rt rtx
            (accPre ++ XmlTree.elem "ListRecords" ltx accKids :: accPost))) =
        some (.merged (.elem rt rtx (accPre ++
          XmlTree.elem "ListRecords" ltx
            (accKids ++ ((mids ++ [last]).map (fun p => recordsOf p.lr)).flatten) ::
          accPost))) := by
  induction mids with
  | nil =>
    intro last tail rt rtx ltx accPre accKids accPost _ _ hlwf hltok haccPre haccKids
    simp only [List.nil_append, List.map_cons, List.map_nil, List.cons_append]
    rw [get_records_step last tail _ hlwf.2.1]
    simp only [hltok]
    rw [mapFirstLR_eq _ rt rtx ltx accPre accKids accPost haccPre]
    rw [appendRecords_elem]
    rw [mapFirstLR_eq _ rt rtx ltx accPre _ accPost haccPre]
    rw [stripTokens_elem]
    rw [filter_netok_of_noTokList (by
      rw [noTokList_append, Bool.and_eq_true]
      exact ⟨haccKids, recordsOf_noTokList hlwf⟩)]
    simp
  | cons p mids ih =>
    intro last tail rt rtx ltx accPre accKids accPost hwf hcont hlwf hltok
      haccPre haccKids
    obtain ⟨t, ht⟩ := Option.isSome_iff_exists.mp (hcont p (by simp))
    simp only [List.cons_append, List.map_cons]
    rw [get_records_step p _ _ ((hwf p (by simp)).2.1)]
    simp only [ht]
    rw [mapFirstLR_eq _ rt rtx ltx accPre accKids accPost haccPre]
    rw [appendRecords_elem]
    rw [mapFirstLR_eq _ rt rtx ltx accPre _ accPost haccPre]
    rw [stripTokens_elem]
    rw [filter_netok_of_noTokList (by
      rw [noTokList_append, Bool.and_eq_true]
      exact ⟨haccKids, recordsOf_noTokList (hwf p (by simp))⟩)]
    rw [ih last tail rt rtx ltx accPre (accKids ++ recordsOf p.lr) accPost
      (fun q hq => hwf q (by simp [hq]))
      (fun q hq => hcont q (by simp [hq])) hlwf hltok haccPre
      (by
        rw [noTokList_append, Bool.and_eq_true]
        exact ⟨haccKids, recordsOf_noTokList (hwf p (by simp))⟩)]
    simp [List.append_assoc]

theorem recs_eq_recCount (p : OaiPage) : p.recs = recCount p.lrKids := rfl

/-- Seeding the accumulator from a page and stripping its token children. -/
theorem mapFirstLR_strip_doc (p : OaiPage)
    (hpre : ∀ c ∈ p.pre, c.tag ≠ "ListRecords") :
    mapFirstLR p.doc stripTokens =
      XmlTree.elem p.rootTag p.rootText (p.pre ++
        XmlTree.elem "ListRecords" p.lrText
          (p.lrKids.filter (fun c => c.tag != "resumptionToken")) :: p.post) := by
  unfold OaiPage.doc OaiPage.lr
  rw [mapFirstLR_eq _ _ _ _ _ _ _ hpre, stripTokens_elem]

/-- **C4.** For every session of `M = front.length + 1` successfully
parsed well-formed pages — pages `1..M-1` carrying a truthy resumption
token, page `M` not — the merging `get_records` produces exactly one
merged document (one logical root) whose `ListRecords` record count
equals the sum of the `M` pages' individual record counts, and the
merged output contains no `resumptionToken` element at any depth. -/
theorem c4_merge_record_counts
    (front : List OaiPage) (last : OaiPage) (tail : List HttpResult)
    (hwf : ∀ p ∈ front, p.wf)
    (hcont : ∀ p ∈ front, (tokenOf p.lr).isSome = true)
    (hlwf : last.wf) (hltok : tokenOf last.lr = none) :
    ∃ T, get_records
        ((front ++ [last]).map (fun p => HttpResult.ok (some p.doc)) ++ tail)
        none = some (.merged T) ∧
      mergedRecCount T = ((front ++ [last]).map OaiPage.recs).sum ∧
      noTok T = true := by
  cases front with
  | nil =>
    refine ⟨XmlTree.elem last.rootTag last.rootText (last.pre ++
      XmlTree.elem "ListRecords" last.lrText
        (last.lrKids.filter (fun c => c.tag != "resumptionToken")) ::
      last.post), ?_, ?_, ?_⟩
    · simp only [List.nil_append, List.map_cons, List.map_nil, List.cons_append]
      rw [get_records_step last tail none hlwf.2.1]
      simp only [hltok]
      rw [mapFirstLR_strip_doc last hlwf.2.1]
    · have hfc : findChild
          (XmlTree.elem last.rootTag last.rootText (last.pre ++
            XmlTree.elem "ListRecords" last.lrText
              (last.lrKids.filter (fun c => c.tag != "resumptionToken")) ::
            last.post)) "ListRecords" =
          some (XmlTree.elem "ListRecords" last.lrText
            (last.lrKids.filter (fun c => c.tag != "resumptionToken"))) :=
        findChild_doc _ _ _ _ _ _ hlwf.2.1
      unfold mergedRecCount
      rw [hfc]
      simp only [XmlTree.children]
      rw [recCount_strip]
      simp [recs_eq_recCount]
    · rw [noTok_elem, Bool.and_eq_true]
      refine ⟨by simp [hlwf.1], ?_⟩
      rw [noTokList_append, Bool.and_eq_true]
      refine ⟨hlwf.2.2.1, ?_⟩
      rw [noTokList_cons, Bool.and_eq_true]
      refine ⟨?_, hlwf.2.2.2.1⟩
      rw [noTok_elem, Bool.and_eq_true]
      exact ⟨by simp, filtered_kids_noTokList hlwf⟩
  | cons p1 mids =>
    have hw1 : p1.wf := hwf p1 (by simp)
    obtain ⟨t, ht⟩ := Option.isSome_iff_exists.mp (hcont p1 (by simp))
    refine ⟨XmlTree.elem p1.rootTag p1.rootText (p1.pre ++
      XmlTree.elem "ListRecords" p1.lrText
        ((p1.lrKids.filter (fun c => c.tag != "resumptionToken")) ++
          ((mids ++ [last]).map (fun p => recordsOf p.lr)).flatten) ::
      p1.post), ?_, ?_, ?_⟩
    · simp only [List.cons_append, List.map_cons]
      rw [get_records_step p1 _ none hw1.2.1]
      simp only [ht]
      rw [mapFirstLR_strip_doc p1 hw1.2.1]
      rw [get_records_go mids last tail p1.rootTag p1.rootText p1.lrText
        p1.pre _ p1.post
        (fun q hq => hwf q (by simp [hq]))
        (fun q hq => hcont q (by simp [hq])) hlwf hltok hw1.2.1
        (filtered_kids_noTokList hw1)]
    · have hfc : findChild
          (XmlTree.elem p1.rootTag p1.rootText (p1.pre ++
            XmlTree.elem "ListRecords" p1.lrText
              ((p1.lrKids.filter (fun c => c.tag != "resumptionToken")) ++
                ((mids ++ [last]).map (fun p => recordsOf p.lr)).flatten) ::
            p1.post)) "ListRecords" =
          some (XmlTree.elem "ListRecords" p1.lrText
            ((p1.lrKids.filter (fun c => c.tag != "resumptionToken")) ++
              ((mids ++ [last]).map (fun p => recordsOf p.lr)).flatten)) :=
        findChild_doc _ _ _ _ _ _ hw1.2.1
      unfold mergedRecCount
      rw [hfc]
      simp only [XmlTree.children]
      rw [recCount_append, recCount_strip, recCount_join_recs]
      simp [recs_eq_recCount]
    · rw [noTok_elem, Bool.and_eq_true]
      refine ⟨by simp [hw1.1], ?_⟩
      rw [noTokList_append, Bool.and_eq_true]
      refine ⟨hw1.2.2.1, ?_⟩
      rw [noTokList_cons, Bool.and_eq_true]
      refine ⟨?_, hw1.2.2.2.1⟩
      rw [noTok_elem, Bool.and_eq_true]
      refine ⟨by simp, ?_⟩
      rw [noTokList_append, Bool.and_eq_true]
      refine ⟨filtered_kids_noTokList hw1, ?_⟩
      apply join_noTokList
      intro q hq
      rcases List.mem_append.mp hq with h | h
      · exact hwf q (by simp [h])
      · rw [List.mem_singleton] at h
        subst h
        exact hlwf

/-- Sample first page for the merging client: one record, token `"tok-1"`. -/
def wOai1 : OaiPage :=
  ⟨"OAI-PMH", none, [], none,
    [wRecord, XmlTree.elem "resumptionToken" (some "tok-1") []], []⟩

/-- Sample last page for the merging client: one record, no token. -/
def wOai2 : OaiPage := ⟨"OAI-PMH", none, [], none, [wRecord], []⟩

theorem wOai1_wf : wOai1.wf := by
  refine ⟨by simp [wOai1], by simp [wOai1], ?_, ?_, ?_⟩
  · simp [wOai1, noTokList]
  · simp [wOai1, noTokList]
  · intro c hc
    simp only [wOai1, List.mem_cons, List.mem_singleton, List.not_mem_nil,
      or_false] at hc
    rcases hc with h | h
    · subst h
      right
      simp [noTok, noTokList, wRecord]
    · subst h
      left
      rfl

theorem wOai2_wf : wOai2.wf := by
  refine ⟨by simp [wOai2], by simp [wOai2], ?_, ?_, ?_⟩
  · simp [wOai2, noTokList]
  · simp [wOai2, noTokList]
  · intro c hc
    simp only [wOai2, List.mem_singleton, List.not_mem_nil, or_false] at hc
    subst hc
    right
    simp [noTok, noTokList, wRecord]

theorem wOai1_token : (tokenOf wOai1.lr).isSome = true := rfl

theorem wOai2_token : tokenOf wOai2.lr = none := rfl

/-- Witness for C4: a two-page session merges into one document with
`1 + 1` records and no resumption token. -/
theorem c4_witness :
    ∃ T, get_records
        (([wOai1] ++ [wOai2]).map (fun p => HttpResult.ok (some p.doc)) ++ [])
        none = some (.merged T) ∧
      mergedRecCount T = (([wOai1] ++ [wOai2]).map OaiPage.recs).sum ∧
      noTok T = true :=
  c4_merge_record_counts [wOai1] wOai2 []
    (by intro p hp; simp only [List.mem_singleton] at hp; subst hp
        exact wOai1_wf)
    (by intro p hp; simp only [List.mem_singleton] at hp; subst hp
        exact wOai1_token)
    wOai2_wf
    wOai2_token

/-! ## Endpoint registry (`src/crawler/endpoint_manager.py`)

Endpoint descriptors are Python dictionaries; they are modelled by the
`PyVal` family below (dicts are insertion-ordered association sequences,
as in CPython).  The registry state is the manager object's in-memory
fields; `save_endpoints` persists the whole store on every mutation, so
the in-memory state below is also the persisted state. -/

mutual
inductive PyVal where
  | pnone
  | pbool (b : Bool)
  | pint (n : Int)
  | pstr (s : String)
  | plist (items : PyItems)
  | pdict (fields : PyFields)
  deriving Repr

inductive PyItems where
  | nil
  | cons (v : PyVal) (rest : PyItems)
  deriving Repr

inductive PyFields where
  | nil
  | cons (k : String) (v : PyVal) (rest : PyFields)
  deriving Repr
end

/-- Convenience constructor for dictionary literals. -/
def fieldsOf : List (String × PyVal) → PyFields
  | [] => .nil
  | (k, v) :: rest => .cons k v (fieldsOf rest)

mutual
/-- Python `==` on the values the registry handles.  Identifiers and the
compared `id`/`url` fields are `None`, ints or strings; containers compare
element-wise.  (CPython's numeric cross-type equalities such as
`True == 1`, and its order-insensitive dict equality, are not exercised by
any comparison in `endpoint_manager.py` and are not modelled.) -/
def pyEq : PyVal → PyVal → Bool
  | .pnone, .pnone => true
  | .pbool a, .pbool b => a == b
  | .pint a, .pint b => a == b
  | .pstr a, .pstr b => a == b
  | .plist a, .plist b => pyEqItems a b
  | .pdict a, .pdict b => pyEqFields a b
  | _, _ => false

def pyEqItems : PyItems → PyItems → Bool
  | .nil, .nil => true
  | .cons a as, .cons b bs => pyEq a b && pyEqItems as bs
  | _, _ => false

def pyEqFields : PyFields → PyFields → Bool
  | .nil, .nil => true
  | .cons k a as, .cons k' b bs => k == k' && pyEq a b && pyEqFields as bs
  | _, _ => false
end

/-- `fields` lookup: first binding of the key. -/
def fieldsGet : PyFields → String → Option PyVal
  | .nil, _ => none
  | .cons k' v rest, k => if k' == k then some v else fieldsGet rest k

/-- `d.get(k)` / `d[k]` (`none` doubles for a `KeyError` on the paths
where the source would raise; every claim's hypotheses keep those paths
unexercised). -/
def dictGet : PyVal → String → Option PyVal
  | .pdict fs, k => fieldsGet fs k
  | _, _ => none

/-- `d[k] = v`: overwrite in place, else append (insertion order). -/
def fieldsSet : PyFields → String → PyVal → PyFields
  | .nil, k, v => .cons k v .nil
  | .cons k' v' rest, k, v =>
      if k' == k then .cons k v rest else .cons k' v' (fieldsSet rest k v)

def dictSet : PyVal → String → PyVal → PyVal
  | .pdict fs, k, v => .pdict (fieldsSet fs k v)
  | d, _, _ => d

/-- `ep.get('id') == identifier or ep['url'] == identifier`. -/
def epMatches (ident ep : PyVal) : Bool :=
  pyEq (match dictGet ep "id" with | some x => x | none => .pnone) ident ||
    (match dictGet ep "url" with | some u => pyEq u ident | none => false)

/-- The in-memory state of the `EndpointManager` singleton. -/
structure EndpointManager where
  file_path : String
  endpoints : List PyVal
  next_id : Int
  initialized : Bool

/-- `EndpointManager.get_endpoint`: first endpoint matching by id or
url. -/
def get_endpoint (m : EndpointManager) (ident : PyVal) : Option PyVal :=
  m.endpoints.find? (epMatches ident)

/-- The standard descriptor dictionary `add_endpoint` builds, in source
key order. -/
def newEndpoint (url name : String) (description : PyVal) (active : Bool)
    (next_id : Int) (dspace_version : PyVal) (number_of_items : Int) : PyVal :=
  .pdict (fieldsOf
    [("url", .pstr url), ("name", .pstr name), ("description", description),
     ("active", .pbool active), ("added_at", .pnone),
     ("last_crawled", .pnone), ("error_count", .pint 0),
     ("id", .pint next_id), ("dspace_version", dspace_version),
     ("number_of_items", .pint number_of_items),
     ("health_status", .pdict (fieldsOf
       [("status", .pstr "unknown"), ("last_checked", .pnone)]))])

/-- `EndpointManager.add_endpoint`: duplicate url ⇒ `False` sentinel
(here `none`), no mutation; otherwise append the new descriptor, bump
`next_id`, persist, and return the fresh id. -/
def add_endpoint (m : EndpointManager) (url name : String) (description : PyVal)
    (active : Bool) (dspace_version : PyVal) (number_of_items : Int) :
    Option Int × EndpointManager :=
  if m.endpoints.any (fun ep =>
      match dictGet ep "url" with
      | some u => pyEq u (.pstr url)
      | none => false) then
    (none, m)
  else
    (some m.next_id,
      { m with
        endpoints := m.endpoints ++
          [newEndpoint url name description active m.next_id dspace_version
            number_of_items],
        next_id := m.next_id + 1 })

/-- Replace the first endpoint matching the identifier (the object the
source mutates in place). -/
def updateFirstMatch (ident : PyVal) (f : PyVal → PyVal) :
    List PyVal → List PyVal
  | [] => []
  | ep :: rest =>
      if epMatches ident ep then f ep :: rest
      else ep :: updateFirstMatch ident f rest

/-- `if key in ep: ep[key] = value` — unknown field names are silently
ignored. -/
def dictSetIfPresent (ep : PyVal) (k : String) (v : PyVal) : PyVal :=
  if (dictGet ep k).isSome then dictSet ep k v else ep

/-- `EndpointManager.update_endpoint` at the single-field call sites the
probe uses (`dspace_version=…`). -/
def update_endpoint (m : EndpointManager) (ident : PyVal) (k : String)
    (v : PyVal) : Bool × EndpointManager :=
  match get_endpoint m ident with
  | none => (false, m)
  | some _ =>
      (true, { m with endpoints :=
        (updateFirstMatch ident (fun ep => dictSetIfPresent ep k v)
          m.endpoints) })

/-- `field_path.split('.')` (Python `str.split` with a one-character
separator; never returns an empty list). -/
def splitOnChar (sep : Char) : List Char → List (List Char)
  | [] => [[]]
  | c :: rest =>
      let r := splitOnChar sep rest
      if c == sep then [] :: r
      else
        match r with
        | [] => [[c]]
        | g :: gs => (c :: g) :: gs

def pySplit (s : String) (sep : Char) : List String :=
  (splitOnChar sep s.data).map (fun cs => String.mk cs)

/-- `if part not in current or not isinstance(current[part], dict):
current[part] = \x7b\x7d` — keep an existing dict child, create an empty
one otherwise. -/
def asDict : Option PyVal → PyVal
  | some (.pdict fs) => .pdict fs
  | _ => .pdict .nil

/-- The `for part in parts[:-1]` walk plus final assignment: create (or
replace a non-dict by) an intermediate dict at each missing step, then set
the last segment. -/
def setPath : PyVal → List String → PyVal → PyVal
  | d, [], _ => d
  | d, [last], v => dictSet d last v
  | d, p :: rest, v => dictSet d p (setPath (asDict (dictGet d p)) rest v)

/-- Read back a dotted path. -/
def getPath : PyVal → List String → Option PyVal
  | d, [] => some d
  | d, p :: rest =>
      match dictGet d p with
      | some v => getPath v rest
      | none => none

/-- The guard `if allowed_fields and top_field not in allowed_fields`:
truthy allow-list (present and non-empty) with the top segment absent. -/
def allowedBlocks (allowed_fields : Option (List String))
    (top_field : String) : Bool :=
  match allowed_fields with
  | some l => decide (l ≠ []) && !(l.contains top_field)
  | none => false

/-- `EndpointManager.set_nested_field`. -/
def set_nested_field (m : EndpointManager) (ident : PyVal)
    (field_path : String) (value : PyVal)
    (allowed_fields : Option (List String)) : Bool × EndpointManager :=
  match get_endpoint m ident with
  | none => (false, m)
  | some _ =>
    if allowedBlocks allowed_fields ((pySplit field_path '.').headD "") then
      (false, m)
    else
      (true, { m with endpoints :=
        (updateFirstMatch ident
          (fun ep => setPath ep (pySplit field_path '.') value)
          m.endpoints) })

theorem fieldsGet_fieldsSet_self :
    ∀ (fs : PyFields) (k : String) (v : PyVal),
    fieldsGet (fieldsSet fs k v) k = some v
  | .nil, k, v => by simp [fieldsSet, fieldsGet]
  | .cons k' v' rest, k, v => by
      by_cases h : k' == k
      · simp [fieldsSet, h, fieldsGet]
      · simp only [fieldsSet, h, Bool.false_eq_true, if_false, fieldsGet]
        exact fieldsGet_fieldsSet_self rest k v

theorem dictGet_dictSet_self (fs : PyFields) (k : String) (v : PyVal) :
    dictGet (dictSet (.pdict fs) k v) k = some v := by
  simp [dictSet, dictGet, fieldsGet_fieldsSet_self]

theorem asDict_is_dict (x : Option PyVal) : ∃ cfs, asDict x = .pdict cfs := by
  cases x with
  | none => exact ⟨.nil, rfl⟩
  | some w => cases w <;> exact ⟨_, rfl⟩

/-- Writing a dotted path into a dictionary makes the path read back the
written value. -/
theorem getPath_setPath : ∀ (parts : List String) (fs : PyFields) (v : PyVal),
    parts ≠ [] → getPath (setPath (.pdict fs) parts v) parts = some v := by
  intro parts
  induction parts with
  | nil => intro fs v h; exact absurd rfl h
  | cons p rest ih =>
    intro fs v _
    cases rest with
    | nil =>
      simp only [setPath, getPath, dictGet_dictSet_self]
    | cons q qs =>
      obtain ⟨cfs, hc⟩ := asDict_is_dict (dictGet (.pdict fs) p)
      simp only [setPath, hc, getPath, dictGet_dictSet_self]
      exact ih cfs v (by simp)

theorem splitOnChar_ne_nil (sep : Char) : ∀ (l : List Char),
    splitOnChar sep l ≠ [] := by
  intro l
  induction l with
  | nil => simp [splitOnChar]
  | cons c rest ih =>
    simp only [splitOnChar]
    by_cases h : c == sep
    · simp [h]
    · simp only [h, Bool.false_eq_true, if_false]
      cases hr : splitOnChar sep rest with
      | nil => exact absurd hr ih
      | cons g gs => simp

theorem pySplit_ne_nil (s : String) (sep : Char) : pySplit s sep ≠ [] := by
  unfold pySplit
  intro h
  rw [List.map_eq_nil_iff] at h
  exact splitOnChar_ne_nil sep s.data h

/-- `find?` success locates an index that `updateFirstMatch` rewrites. -/
theorem find?_updateFirstMatch (ident : PyVal) (f : PyVal → PyVal) :
    ∀ (l : List PyVal) (ep : PyVal), l.find? (epMatches ident) = some ep →
    ∃ i, l.get? i = some ep ∧
      (updateFirstMatch ident f l).get? i = some (f ep) := by
  intro l
  induction l with
  | nil => intro ep h; simp [List.find?] at h
  | cons x rest ih =>
    intro ep h
    by_cases hx : epMatches ident x
    · rw [List.find?_cons_of_pos _ hx] at h
      injection h with h
      subst h
      exact ⟨0, rfl, by simp [updateFirstMatch, hx]⟩
    · rw [List.find?_cons_of_neg _ hx] at h
      obtain ⟨i, h1, h2⟩ := ih ep h
      refine ⟨i + 1, by simpa using h1, ?_⟩
      simp only [updateFirstMatch, hx, Bool.false_eq_true, if_false]
      simpa using h2

/-- **C5.** Adding the same url twice never raises: with the url fresh,
the first call returns the fresh id (`next_id`) and grows the registry by
one; the second call returns the duplicate sentinel (`False`, modelled
`none`) and leaves the state exactly as after the first call, so the
registry holds exactly one more endpoint than before the first call. -/
theorem c5_add_duplicate_url
    (m : EndpointManager) (url name : String) (description : PyVal)
    (active : Bool) (dspace_version : PyVal) (number_of_items : Int)
    (_hwf : ∀ ep ∈ m.endpoints, (dictGet ep "url").isSome = true)
    (hfresh : ∀ ep ∈ m.endpoints, ∀ u, dictGet ep "url" = some u →
      pyEq u (.pstr url) = false) :
    (add_endpoint m url name description active dspace_version
        number_of_items).1 = some m.next_id ∧
    (add_endpoint m url name description active dspace_version
        number_of_items).2.endpoints.length = m.endpoints.length + 1 ∧
    add_endpoint
        (add_endpoint m url name description active dspace_version
          number_of_items).2
        url name description active dspace_version number_of_items =
      (none,
        (add_endpoint m url name description active dspace_version
          number_of_items).2) := by
  have hany : (m.endpoints.any fun ep =>
      match dictGet ep "url" with
      | some u => pyEq u (.pstr url)
      | none => false) = false := by
    rw [List.any_eq_false]
    intro ep hep
    cases hu : dictGet ep "url" with
    | none => simp
    | some u => simp [hfresh ep hep u hu]
  have h1 : add_endpoint m url name description active dspace_version
      number_of_items =
      (some m.next_id,
        { m with
          endpoints := m.endpoints ++
            [newEndpoint url name description active m.next_id dspace_version
              number_of_items],
          next_id := m.next_id + 1 }) := by
    unfold add_endpoint
    rw [hany]
    rfl
  refine ⟨by rw [h1], by rw [h1]; simp, ?_⟩
  rw [h1]
  have hget : dictGet (newEndpoint url name description active m.next_id
      dspace_version number_of_items) "url" = some (.pstr url) := rfl
  have hany2 : ((m.endpoints ++
      [newEndpoint url name description active m.next_id dspace_version
        number_of_items]).any fun ep =>
      match dictGet ep "url" with
      | some u => pyEq u (.pstr url)
      | none => false) = true := by
    rw [List.any_append]
    apply Bool.or_eq_true_iff.mpr
    right
    simp [List.any_cons, hget, pyEq]
  unfold add_endpoint
  rw [hany2]
  rfl

/-- Witness manager: one standard endpoint with id 1. -/
def wEp : PyVal :=
  newEndpoint "https://repo.example/oai/request" "Example Repo" .pnone true 1
    .pnone 0

def wMgr : EndpointManager := ⟨"endpoints.json", [wEp], 2, true⟩

/-- Witness for C5: adding a fresh url twice to the one-endpoint registry
succeeds once, then signals the duplicate. -/
theorem c5_witness :
    (add_endpoint wMgr "https://other.example/oai/request" "Other" .pnone true
        .pnone 0).1 = some wMgr.next_id ∧
    (add_endpoint wMgr "https://other.example/oai/request" "Other" .pnone true
        .pnone 0).2.endpoints.length = wMgr.endpoints.length + 1 ∧
    add_endpoint
        (add_endpoint wMgr "https://other.example/oai/request" "Other" .pnone
          true .pnone 0).2
        "https://other.example/oai/request" "Other" .pnone true .pnone 0 =
      (none,
        (add_endpoint wMgr "https://other.example/oai/request" "Other" .pnone
          true .pnone 0).2) :=
  c5_add_duplicate_url wMgr "https://other.example/oai/request" "Other" .pnone
    true .pnone 0
    (by decide)
    (by
      intro ep hep u hu
      simp only [wMgr, List.mem_singleton] at hep
      subst hep
      have hw : dictGet wEp "url" =
          some (.pstr "https://repo.example/oai/request") := rfl
      rw [hw] at hu
      injection hu with hu
      subst hu
      rfl)

/-- **C6 (amended).** With a non-empty allow-list that does not contain
the path's top segment, `set_nested_field` returns `False` and the whole
registry state is exactly unchanged (no intermediate nodes created,
nothing persisted). -/
theorem c6_nonempty_allowlist_blocks
    (m : EndpointManager) (ident : PyVal) (field_path : String) (value : PyVal)
    (l : List String) (hl : l ≠ [])
    (htop : ((pySplit field_path '.').headD "") ∉ l) :
    set_nested_field m ident field_path value (some l) = (false, m) := by
  unfold set_nested_field
  cases hge : get_endpoint m ident with
  | none => rfl
  | some ep =>
    have hc : l.contains ((pySplit field_path '.').headD "") = false := by
      simpa using htop
    have hb : allowedBlocks (some l) ((pySplit field_path '.').headD "") =
        true := by
      simp only [allowedBlocks]
      rw [hc]
      simp [hl]
    rw [hb]
    rfl

/-- Witness for the amended C6: allow-list `["machine_name"]`, path
`"hacked.deep"` — rejected, state unchanged. -/
theorem c6_witness :
    set_nested_field wMgr (.pint 1) "hacked.deep" (.pstr "owned")
      (some ["machine_name"]) = (false, wMgr) :=
  c6_nonempty_allowlist_blocks wMgr (.pint 1) "hacked.deep" (.pstr "owned")
    ["machine_name"] (by decide) (by decide)

/-- **C6 (counterexample).** The claim as stated also covers a supplied
empty allow-list (every top segment is absent from `[]`), but then the
source's `if allowed_fields and …` guard is skipped: the write goes
through, a brand-new top-level field is created on the descriptor, and the
call returns `True` with the registry mutated. -/
theorem c6_counterexample :
    (set_nested_field wMgr (.pint 1) "hacked.deep" (.pstr "owned")
        (some [])).1 = true ∧
    getPath ((set_nested_field wMgr (.pint 1) "hacked.deep" (.pstr "owned")
        (some [])).2.endpoints.headD .pnone) ["hacked", "deep"] =
      some (.pstr "owned") ∧
    getPath (wMgr.endpoints.headD .pnone) ["hacked", "deep"] = none ∧
    (set_nested_field wMgr (.pint 1) "hacked.deep" (.pstr "owned")
        (some [])).2 ≠ wMgr := by
  refine ⟨by rfl, by rfl, by rfl, ?_⟩
  intro h
  have h2 : getPath ((set_nested_field wMgr (.pint 1) "hacked.deep"
      (.pstr "owned") (some [])).2.endpoints.headD .pnone)
      ["hacked", "deep"] = some (.pstr "owned") := by rfl
  rw [h] at h2
  have h3 : getPath (wMgr.endpoints.headD .pnone) ["hacked", "deep"] =
      none := by rfl
  rw [h2] at h3
  cases h3

/-- **C10.** When `set_nested_field` is called with the allow-list
omitted (`None`) or empty, the top-level-segment check is skipped: for
every endpoint found, the write through any dotted path — including one
creating a brand-new top-level field — is performed on that endpoint,
persisted in the registry, and reported `True`; reading the path back
from the written descriptor yields the value. -/
theorem c10_falsy_allowlist_skips_check
    (m : EndpointManager) (ident : PyVal) (field_path : String) (value : PyVal)
    (allowed : Option (List String))
    (hfalsy : allowed = none ∨ allowed = some [])
    (ep : PyVal) (hep : get_endpoint m ident = some ep) :
    (set_nested_field m ident field_path value allowed).1 = true ∧
    (∃ i, m.endpoints.get? i = some ep ∧
      (set_nested_field m ident field_path value allowed).2.endpoints.get? i =
        some (setPath ep (pySplit field_path '.') value)) ∧
    (∀ fs, ep = .pdict fs →
      getPath (setPath ep (pySplit field_path '.') value)
        (pySplit field_path '.') = some value) := by
  have hb : allowedBlocks allowed ((pySplit field_path '.').headD "") =
      false := by
    rcases hfalsy with h | h <;> subst h <;> simp [allowedBlocks]
  have heval : set_nested_field m ident field_path value allowed =
      (true, { m with endpoints :=
        (updateFirstMatch ident
          (fun e => setPath e (pySplit field_path '.') value)
          m.endpoints) }) := by
    unfold set_nested_field
    rw [hep, hb]
    rfl
  refine ⟨by rw [heval], ?_, ?_⟩
  · obtain ⟨i, h1, h2⟩ := find?_updateFirstMatch ident
      (fun e => setPath e (pySplit field_path '.') value) m.endpoints ep hep
    exact ⟨i, h1, by rw [heval]; exact h2⟩
  · intro fs hfs
    subst hfs
    exact getPath_setPath (pySplit field_path '.') fs value
      (pySplit_ne_nil field_path '.')

/-- Witness for C10: allow-list omitted, a new top-level field
`machine_name` is written on the witness endpoint and reads back. -/
theorem c10_witness :
    (set_nested_field wMgr (.pint 1) "machine_name" (.pstr "example_repo")
        none).1 = true ∧
    (∃ i, wMgr.endpoints.get? i = some wEp ∧
      (set_nested_field wMgr (.pint 1) "machine_name" (.pstr "example_repo")
          none).2.endpoints.get? i =
        some (setPath wEp (pySplit "machine_name" '.')
          (.pstr "example_repo"))) ∧
    (∀ fs, wEp = .pdict fs →
      getPath (setPath wEp (pySplit "machine_name" '.')
          (.pstr "example_repo"))
        (pySplit "machine_name" '.') = some (.pstr "example_repo")) :=
  c10_falsy_allowlist_skips_check wMgr (.pint 1) "machine_name"
    (.pstr "example_repo") none (Or.inl rfl) wEp (by rfl)

/-! ## Health probe (`EndpointManager.validate_url_health`)

String operations are modelled on code-point sequences (Python `str`
semantics).  The network is a function from URL to response; `exc` is a
raised `requests.RequestException`. -/

/-- `str.startswith` on code points. -/
def isPrefChars : List Char → List Char → Bool
  | [], _ => true
  | _ :: _, [] => false
  | a :: as, b :: bs => a == b && isPrefChars as bs

/-- `sub in s` scanning. -/
def hasSubChars (pat : List Char) : List Char → Bool
  | [] => isPrefChars pat []
  | c :: rest => isPrefChars pat (c :: rest) || hasSubChars pat rest

/-- `str.replace`: replace non-overlapping occurrences left to right.
The fuel argument (instantiated with the text's length, an upper bound on
the steps) only discharges termination.  An empty pattern — which Python
treats as matching between every character, and which no call site
passes — is left unreplaced. -/
def replaceChars (pat rep : List Char) : Nat → List Char → List Char
  | _, [] => []
  | 0, l => l
  | fuel + 1, c :: rest =>
      if pat ≠ [] && isPrefChars pat (c :: rest) then
        rep ++ replaceChars pat rep fuel (List.drop (pat.length - 1) rest)
      else c :: replaceChars pat rep fuel rest

def pyReplace (s pat rep : String) : String :=
  String.mk (replaceChars pat.data rep.data s.data.length s.data)

/-- `sub in s`. -/
def pyContains (s sub : String) : Bool := hasSubChars sub.data s.data

/-- `s.startswith(p)`. -/
def pyStartsWith (s p : String) : Bool := isPrefChars p.data s.data

/-- One HTTP answer for the probe: a raised `RequestException` or a
status code. -/
inductive HttpResp where
  | exc
  | status (code : Nat)

/-- `response.status_code == 200` (an exception is never 200). -/
def is200 : HttpResp → Bool
  | .status c => c == 200
  | .exc => false

/-- `ep.get(k)` with the Python `None` default. -/
def dictGetD (ep : PyVal) (k : String) : PyVal :=
  match dictGet ep k with
  | some v => v
  | none => .pnone

/-- `if version and not version.startswith('Unknown')`: a known version
is a non-empty string not starting with `"Unknown"`.  (A non-string
truthy value would raise `AttributeError` on `startswith`; registry
versions are strings or `None`.) -/
def versionTruthyKnown : PyVal → Bool
  | .pstr s => decide (s ≠ "") && !(pyStartsWith s "Unknown")
  | _ => false

/-- Known-v7 health URL: `url.replace('/server/oai/request',
'/server/actuator/health')`. -/
def healthUrlKnown7 (url : String) : String :=
  pyReplace url "/server/oai/request" "/server/actuator/health"

/-- Known-v5/6 health URL: `url.replace('/oai/request', '/rest/status')`. -/
def healthUrlKnown56 (url : String) : String :=
  pyReplace url "/oai/request" "/rest/status"

/-- Unknown-version first try (v7-derived). -/
def healthUrl7 (url : String) : String :=
  if pyContains url "/server/oai/request" then
    pyReplace url "/server/oai/request" "/server/actuator/health"
  else
    pyReplace url "/oai/request" "/server/actuator/health"

/-- Unknown-version second try (legacy-derived). -/
def healthUrl56 (url : String) : String :=
  pyReplace (pyReplace url "/oai/request" "/rest/status")
    "/server/oai/request" "/rest/status"

/-- The unknown-version fallback cascade: try the v7-derived path, on 200
persist `dspace_version="7.x"` and report healthy; else the
legacy-derived path, on 200 persist `"6.x"` and report healthy; else
unhealthy.  A transport exception at a step is just a non-200 for that
step. -/
def unknownProbe (m : EndpointManager) (env : String → HttpResp)
    (url : String) : Bool × EndpointManager :=
  if is200 (env (healthUrl7 url)) then
    (true, (update_endpoint m (.pstr url) "dspace_version" (.pstr "7.x")).2)
  else if is200 (env (healthUrl56 url)) then
    (true, (update_endpoint m (.pstr url) "dspace_version" (.pstr "6.x")).2)
  else (false, m)

/-- `EndpointManager.validate_url_health`. -/
def validate_url_health (m : EndpointManager) (env : String → HttpResp)
    (url : String) : Bool × EndpointManager :=
  if is200 (env (url ++ "?verb=Identify")) then (true, m)
  else
    match get_endpoint m (.pstr url) with
    | none => (false, m)
    | some ep =>
      match dictGetD ep "dspace_version" with
      | .pstr s =>
          if decide (s ≠ "") && !(pyStartsWith s "Unknown") then
            if pyStartsWith s "7" then
              (is200 (env (healthUrlKnown7 url)), m)
            else if pyStartsWith s "5" || pyStartsWith s "6" then
              (is200 (env (healthUrlKnown56 url)), m)
            else (false, m)
          else unknownProbe m env url
      | _ => unknownProbe m env url

theorem fieldsGet_fieldsSet_other :
    ∀ (fs : PyFields) (k k' : String) (v : PyVal), (k == k') = false →
    fieldsGet (fieldsSet fs k v) k' = fieldsGet fs k'
  | .nil, k, k', v, h => by simp [fieldsSet, fieldsGet, h]
  | .cons k0 v0 rest, k, k', v, h => by
      by_cases h0 : k0 == k
      · have hk0 : k0 = k := by simpa using h0
        simp only [fieldsSet, h0, if_true, fieldsGet, h, Bool.false_eq_true,
          if_false]
        rw [hk0, if_neg (by simpa using h)]
      · simp only [fieldsSet, h0, Bool.false_eq_true, if_false, fieldsGet]
        by_cases h1 : k0 == k'
        · simp [h1]
        · simp only [h1, Bool.false_eq_true, if_false]
          exact fieldsGet_fieldsSet_other rest k k' v h

theorem dictGet_dictSet_other (fs : PyFields) (k k' : String) (v : PyVal)
    (h : (k == k') = false) :
    dictGet (dictSet (.pdict fs) k v) k' = dictGet (.pdict fs) k' := by
  simp [dictSet, dictGet, fieldsGet_fieldsSet_other fs k k' v h]

/-- Setting `dspace_version` does not change which identifiers an
endpoint matches (the match reads `id` and `url` only). -/
theorem epMatches_dictSet_version (ident : PyVal) (fs : PyFields) (v : PyVal)
    (h : epMatches ident (.pdict fs) = true) :
    epMatches ident (dictSet (.pdict fs) "dspace_version" v) = true := by
  unfold epMatches at h ⊢
  rw [dictGet_dictSet_other fs "dspace_version" "id" v (by decide)]
  rw [dictGet_dictSet_other fs "dspace_version" "url" v (by decide)]
  exact h

theorem find?_updateFirstMatch_self (ident : PyVal) (f : PyVal → PyVal) :
    ∀ (l : List PyVal) (ep : PyVal), l.find? (epMatches ident) = some ep →
    epMatches ident (f ep) = true →
    (updateFirstMatch ident f l).find? (epMatches ident) = some (f ep) := by
  intro l
  induction l with
  | nil => intro ep h _; simp [List.find?] at h
  | cons x rest ih =>
    intro ep h hf
    by_cases hx : epMatches ident x
    · rw [List.find?_cons_of_pos _ hx] at h
      injection h with h
      subst h
      simp only [updateFirstMatch, hx, if_true]
      exact List.find?_cons_of_pos _ hf
    · rw [List.find?_cons_of_neg _ hx] at h
      simp only [updateFirstMatch, hx, Bool.false_eq_true, if_false]
      rw [List.find?_cons_of_neg _ hx]
      exact ih ep h hf

/-- After `update_endpoint … dspace_version=v`, looking the endpoint up
by its url shows the new version. -/
theorem update_version_shows (m : EndpointManager) (url : String)
    (fs : PyFields) (v : PyVal)
    (hep : get_endpoint m (.pstr url) = some (.pdict fs))
    (hkey : (fieldsGet fs "dspace_version").isSome = true) :
    ∃ ep', get_endpoint
        (update_endpoint m (.pstr url) "dspace_version" v).2 (.pstr url) =
        some ep' ∧
      dictGet ep' "dspace_version" = some v := by
  have hmatch : epMatches (.pstr url) (.pdict fs) = true := List.find?_some hep
  have hset : dictSetIfPresent (.pdict fs) "dspace_version" v =
      dictSet (.pdict fs) "dspace_version" v := by
    unfold dictSetIfPresent
    rw [if_pos]
    show (dictGet (.pdict fs) "dspace_version").isSome = true
    simpa [dictGet] using hkey
  refine ⟨dictSet (.pdict fs) "dspace_version" v, ?_,
    dictGet_dictSet_self fs _ v⟩
  unfold update_endpoint
  rw [hep]
  show (updateFirstMatch (.pstr url)
      (fun ep => dictSetIfPresent ep "dspace_version" v)
      m.endpoints).find? (epMatches (.pstr url)) = _
  have hres := find?_updateFirstMatch_self (.pstr url)
    (fun ep => dictSetIfPresent ep "dspace_version" v) m.endpoints (.pdict fs)
    hep
    (by
      show epMatches (.pstr url)
        (dictSetIfPresent (.pdict fs) "dspace_version" v) = true
      rw [hset]
      exact epMatches_dictSet_version (.pstr url) fs v hmatch)
  rw [hres]
  exact congrArg some hset

/-- On a non-200 Identify and an endpoint whose recorded version is
unknown in the source's sense (falsy or `"Unknown…"`), the probe is the
fallback cascade. -/
theorem validate_unknown_eq_cascade (m : EndpointManager)
    (env : String → HttpResp) (url : String) (fs : PyFields)
    (hIdent : is200 (env (url ++ "?verb=Identify")) = false)
    (hep : get_endpoint m (.pstr url) = some (.pdict fs))
    (hunk : versionTruthyKnown (dictGetD (.pdict fs) "dspace_version") =
      false) :
    validate_url_health m env url = unknownProbe m env url := by
  unfold validate_url_health
  rw [hIdent]
  simp only [Bool.false_eq_true, if_false, hep]
  cases hd : dictGetD (.pdict fs) "dspace_version" with
  | pstr s =>
      rw [hd] at hunk
      simp only [versionTruthyKnown] at hunk
      simp only [hunk, Bool.false_eq_true, if_false]
  | pnone => rfl
  | pbool b => rfl
  | pint n => rfl
  | plist l => rfl
  | pdict d => rfl

/-- **C7 (counterexample).** The claim calls every version that is not a
5/6/7-prefixed string "unknown".  But the source's unknown test is
`if version and not version.startswith('Unknown')`: a truthy
`dspace_version` such as `"8.1"` takes the known branch, whose final
`else` returns `False` immediately — the v7-derived health path is never
tried even though it would return 200, and nothing is persisted. -/
def wUrl7 : String := "https://x.example/oai/request"

def wEp81 : PyVal := newEndpoint wUrl7 "X Repo" .pnone true 1 (.pstr "8.1") 0

def wMgr81 : EndpointManager := ⟨"endpoints.json", [wEp81], 2, true⟩

def wEnv81 : String → HttpResp := fun s =>
  if s == "https://x.example/server/actuator/health" then .status 200
  else .status 404

theorem c7_counterexample :
    is200 (wEnv81 (wUrl7 ++ "?verb=Identify")) = false ∧
    (pyStartsWith "8.1" "5" = false ∧ pyStartsWith "8.1" "6" = false ∧
      pyStartsWith "8.1" "7" = false) ∧
    is200 (wEnv81 (healthUrl7 wUrl7)) = true ∧
    validate_url_health wMgr81 wEnv81 wUrl7 = (false, wMgr81) := by
  refine ⟨rfl, ⟨rfl, rfl, rfl⟩, rfl, rfl⟩

/-- **C7 (amended).** Probing an endpoint whose recorded dspace_version
is unknown in the source's sense — absent, empty, or an
`"Unknown…"`-prefixed string — after a non-200 Identify, tries the
v7-derived actuator path first: on 200 it reports healthy and the
registry now shows `dspace_version="7.x"`; otherwise it tries the
legacy-derived status path, and on 200 reports healthy with
`dspace_version="6.x"` persisted; if neither returns 200 it reports
unhealthy with the registry unchanged.  A transport exception at any
step is a non-200 for just that step, falling through to the next
fallback. -/
theorem c7_unknown_version_cascade (m : EndpointManager)
    (env : String → HttpResp) (url : String) (fs : PyFields)
    (hIdent : is200 (env (url ++ "?verb=Identify")) = false)
    (hep : get_endpoint m (.pstr url) = some (.pdict fs))
    (hunk : versionTruthyKnown (dictGetD (.pdict fs) "dspace_version") = false)
    (hkey : (fieldsGet fs "dspace_version").isSome = true) :
    (is200 (env (healthUrl7 url)) = true →
      (validate_url_health m env url).1 = true ∧
      ∃ ep', get_endpoint (validate_url_health m env url).2 (.pstr url) =
          some ep' ∧
        dictGet ep' "dspace_version" = some (.pstr "7.x")) ∧
    (is200 (env (healthUrl7 url)) = false →
      is200 (env (healthUrl56 url)) = true →
      (validate_url_health m env url).1 = true ∧
      ∃ ep', get_endpoint (validate_url_health m env url).2 (.pstr url) =
          some ep' ∧
        dictGet ep' "dspace_version" = some (.pstr "6.x")) ∧
    (is200 (env (healthUrl7 url)) = false →
      is200 (env (healthUrl56 url)) = false →
      validate_url_health m env url = (false, m)) := by
  have hv := validate_unknown_eq_cascade m env url fs hIdent hep hunk
  refine ⟨?_, ?_, ?_⟩
  · intro h7
    rw [hv]
    unfold unknownProbe
    rw [h7]
    simp only [if_true]
    exact ⟨trivial, update_version_shows m url fs (.pstr "7.x") hep hkey⟩
  · intro h7 h56
    rw [hv]
    unfold unknownProbe
    rw [h7, h56]
    simp only [Bool.false_eq_true, if_false, if_true]
    exact ⟨trivial, update_version_shows m url fs (.pstr "6.x") hep hkey⟩
  · intro h7 h56
    rw [hv]
    unfold unknownProbe
    rw [h7, h56]
    simp

/-- Witness endpoint with unknown (`None`) version. -/
def wEpU : PyVal := newEndpoint wUrl7 "X Repo" .pnone true 1 .pnone 0

def wMgrU : EndpointManager := ⟨"endpoints.json", [wEpU], 2, true⟩

/-- Witness for the amended C7 at a concrete registry and network. -/
theorem c7_witness :
    (is200 (wEnv81 (healthUrl7 wUrl7)) = true →
      (validate_url_health wMgrU wEnv81 wUrl7).1 = true ∧
      ∃ ep', get_endpoint (validate_url_health wMgrU wEnv81 wUrl7).2
          (.pstr wUrl7) = some ep' ∧
        dictGet ep' "dspace_version" = some (.pstr "7.x")) ∧
    (is200 (wEnv81 (healthUrl7 wUrl7)) = false →
      is200 (wEnv81 (healthUrl56 wUrl7)) = true →
      (validate_url_health wMgrU wEnv81 wUrl7).1 = true ∧
      ∃ ep', get_endpoint (validate_url_health wMgrU wEnv81 wUrl7).2
          (.pstr wUrl7) = some ep' ∧
        dictGet ep' "dspace_version" = some (.pstr "6.x")) ∧
    (is200 (wEnv81 (healthUrl7 wUrl7)) = false →
      is200 (wEnv81 (healthUrl56 wUrl7)) = false →
      validate_url_health wMgrU wEnv81 wUrl7 = (false, wMgrU)) :=
  c7_unknown_version_cascade wMgrU wEnv81 wUrl7
    (fieldsOf
      [("url", .pstr wUrl7), ("name", .pstr "X Repo"), ("description", .pnone),
       ("active", .pbool true), ("added_at", .pnone),
       ("last_crawled", .pnone), ("error_count", .pint 0),
       ("id", .pint 1), ("dspace_version", .pnone),
       ("number_of_items", .pint 0),
       ("health_status", .pdict (fieldsOf
         [("status", .pstr "unknown"), ("last_checked", .pnone)]))])
    rfl rfl rfl rfl

/-! ## Singleton construction (`EndpointManager.__new__` / `__init__`)

`storage` maps a file path to the parsed `endpoints` array of the JSON
document (`none` stands for a missing file or a `JSONDecodeError`/
`IOError`, which all yield an empty registry).  Construction is modelled
as explicit state passing of the class-level `_instance` slot. -/

/-- `ep.get('id', 0)` as used by `load_endpoints` (registry ids are
ints). -/
def epId (ep : PyVal) : Int :=
  match dictGet ep "id" with
  | some (.pint n) => n
  | _ => 0

/-- `EndpointManager.load_endpoints`: endpoints list and next id
(`max(ep.get('id', 0) for ep in endpoints) + 1`, or 1 when empty or
missing). -/
def load_endpoints (storage : String → Option (List PyVal)) (fp : String) :
    List PyVal × Int :=
  match storage fp with
  | none => ([], 1)
  | some [] => ([], 1)
  | some (e :: rest) => (e :: rest, (rest.map epId).foldl max (epId e) + 1)

/-- A freshly allocated instance before `__init__` ran (`hasattr(self,
'initialized')` is false; the other fields are unset and never observed). -/
def blankManager : EndpointManager := ⟨"", [], 0, false⟩

/-- One construction call `EndpointManager(fp)`: `__new__` returns the
existing `_instance` or allocates one; `__init__` runs on the returned
object but loads and sets fields only when not yet `initialized`.
Returns the constructed handle and the new `_instance` slot. -/
def constructEM (storage : String → Option (List PyVal))
    (inst? : Option EndpointManager) (fp : String) :
    EndpointManager × Option EndpointManager :=
  match inst? with
  | some inst =>
      if inst.initialized then (inst, some inst)
      else
        (⟨fp, (load_endpoints storage fp).1, (load_endpoints storage fp).2,
          true⟩,
         some ⟨fp, (load_endpoints storage fp).1,
           (load_endpoints storage fp).2, true⟩)
  | none =>
      (⟨fp, (load_endpoints storage fp).1, (load_endpoints storage fp).2,
        true⟩,
       some ⟨fp, (load_endpoints storage fp).1, (load_endpoints storage fp).2,
         true⟩)

/-- **C8.** The first construction loads from its storage path and
installs the one live handle; every subsequent construction — with any
storage contents and any (different) path — returns that same handle
with the first caller's arguments still in effect and performs no reload
or re-initialization (the `_instance` slot is unchanged). -/
theorem c8_singleton_first_caller_wins
    (storage1 : String → Option (List PyVal)) (fp1 : String) :
    (constructEM storage1 none fp1).1.file_path = fp1 ∧
    (constructEM storage1 none fp1).1.endpoints =
      (load_endpoints storage1 fp1).1 ∧
    (constructEM storage1 none fp1).1.next_id =
      (load_endpoints storage1 fp1).2 ∧
    (constructEM storage1 none fp1).2 = some (constructEM storage1 none fp1).1 ∧
    ∀ (storage2 : String → Option (List PyVal)) (fp2 : String),
      constructEM storage2 (constructEM storage1 none fp1).2 fp2 =
        constructEM storage1 none fp1 :=
  ⟨rfl, rfl, rfl, rfl, fun _ _ => rfl⟩

/-! ## Crawl orchestration (`crawl_all_endpoints_xml`,
`src/crawler/dspace_client.py`, and `FetchResults.save_summary`,
`src/crawler/main.py`)

A per-endpoint harvest (`DSpaceClient(endpoint_identifier=…)` followed by
`get_records_xml(…)`) is abstracted as an oracle from the endpoint
descriptor to either its result dictionary or the text of the exception
it raised; the orchestrator's own control flow is embedded exactly. -/

/-- Python truthiness. -/
def pyTruthy : PyVal → Bool
  | .pnone => false
  | .pbool b => b
  | .pint n => n != 0
  | .pstr s => s ≠ ""
  | .plist .nil => false
  | .plist (.cons _ _) => true
  | .pdict .nil => false
  | .pdict (.cons _ _ _) => true

/-- `r.get(k, d)`. -/
def pyGetD (r : PyVal) (k : String) (d : PyVal) : PyVal :=
  match dictGet r k with
  | some v => v
  | none => d

/-- The failure entry the orchestrator's `except` handler appends:
`{'success': False, 'endpoint': endpoint['name'], 'error': str(e)}`. -/
def failEntry (ep : PyVal) (msg : String) : PyVal :=
  .pdict (fieldsOf
    [("success", .pbool false), ("endpoint", dictGetD ep "name"),
     ("error", .pstr msg)])

/-- `crawl_all_endpoints_xml`'s result loop over the active endpoints:
one entry per endpoint, the harvested result dictionary or the failure
entry. -/
def crawl_all_endpoints_xml (endpoints : List PyVal)
    (run : PyVal → Except String PyVal) : List PyVal :=
  endpoints.map (fun ep =>
    match run ep with
    | .ok r => r
    | .error e => failEntry ep e)

/-- `r.get('success', False)` truthiness, the `FetchResults` split. -/
def successTruthy (r : PyVal) : Bool :=
  pyTruthy (pyGetD r "success" (.pbool false))

/-- The run-dependent content of `FetchResults.save_summary`: totals and
the `failed_endpoints` (name, error) entries. -/
structure FetchSummary where
  total_endpoints : Nat
  successful : Nat
  failed : Nat
  failed_endpoints : List (PyVal × PyVal)

def save_summary (results : List PyVal) : FetchSummary :=
  ⟨results.length,
   (results.filter successTruthy).length,
   (results.filter (fun r => !(successTruthy r))).length,
   (results.filter (fun r => !(successTruthy r))).map
     (fun r => (pyGetD r "endpoint" (.pstr "Unknown"),
       pyGetD r "error" (.pstr "Unknown error")))⟩

/-- **C9.** An exception while harvesting one endpoint never aborts the
batch: the orchestrator records a failure entry carrying that endpoint's
name and the error text at that endpoint's position, still produces one
entry for every endpoint (it always completes), and the final summary's
`failed_endpoints` names the failed endpoint with its error text. -/
theorem c9_endpoint_failure_isolated
    (endpoints : List PyVal) (run : PyVal → Except String PyVal)
    (i : Nat) (ep : PyVal) (e nm : String)
    (hi : endpoints.get? i = some ep)
    (hrun : run ep = .error e)
    (hname : dictGet ep "name" = some (.pstr nm)) :
    (crawl_all_endpoints_xml endpoints run).length = endpoints.length ∧
    (∀ j ep', endpoints.get? j = some ep' →
      ∃ r, (crawl_all_endpoints_xml endpoints run).get? j = some r) ∧
    (crawl_all_endpoints_xml endpoints run).get? i = some (failEntry ep e) ∧
    dictGet (failEntry ep e) "endpoint" = some (.pstr nm) ∧
    dictGet (failEntry ep e) "error" = some (.pstr e) ∧
    ((PyVal.pstr nm, PyVal.pstr e) ∈
      (save_summary (crawl_all_endpoints_xml endpoints run)).failed_endpoints)
    := by
  have hgetname : dictGetD ep "name" = .pstr nm := by
    unfold dictGetD
    rw [hname]
  have hentry : (crawl_all_endpoints_xml endpoints run).get? i =
      some (failEntry ep e) := by
    unfold crawl_all_endpoints_xml
    rw [List.get?_map, hi]
    simp [hrun]
  have hnamefield : dictGet (failEntry ep e) "endpoint" = some (.pstr nm) := by
    unfold failEntry
    rw [hgetname]
    rfl
  refine ⟨by simp [crawl_all_endpoints_xml], ?_, hentry, hnamefield, rfl, ?_⟩
  · intro j ep' hj
    unfold crawl_all_endpoints_xml
    rw [List.get?_map, hj]
    exact ⟨_, rfl⟩
  · have hmem : failEntry ep e ∈ crawl_all_endpoints_xml endpoints run :=
      List.get?_mem hentry
    unfold save_summary
    simp only
    apply List.mem_map.mpr
    refine ⟨failEntry ep e, List.mem_filter.mpr ⟨hmem, ?_⟩, ?_⟩
    · rfl
    · rw [show pyGetD (failEntry ep e) "endpoint" (.pstr "Unknown") =
        dictGetD ep "name" from rfl]
      rw [hgetname]
      rfl

/-- Two crawl endpoints; harvesting the first raises. -/
def wCrawlA : PyVal :=
  .pdict (fieldsOf [("id", .pint 1),
    ("url", .pstr "http://a.example/oai/request"), ("name", .pstr "A")])

def wCrawlB : PyVal :=
  .pdict (fieldsOf [("id", .pint 2),
    ("url", .pstr "http://b.example/oai/request"), ("name", .pstr "B")])

def wRun : PyVal → Except String PyVal := fun ep =>
  match dictGet ep "name" with
  | some (.pstr "A") => .error "connection timed out"
  | _ => .ok (.pdict (fieldsOf
      [("success", .pbool true), ("endpoint", dictGetD ep "name")]))

/-- Witness for C9: the first endpoint's exception yields a failure entry
at position 0, the batch still covers both endpoints, and the summary
names endpoint `A` with its error. -/
theorem c9_witness :
    (crawl_all_endpoints_xml [wCrawlA, wCrawlB] wRun).length =
      [wCrawlA, wCrawlB].length ∧
    (∀ j ep', [wCrawlA, wCrawlB].get? j = some ep' →
      ∃ r, (crawl_all_endpoints_xml [wCrawlA, wCrawlB] wRun).get? j =
        some r) ∧
    (crawl_all_endpoints_xml [wCrawlA, wCrawlB] wRun).get? 0 =
      some (failEntry wCrawlA "connection timed out") ∧
    dictGet (failEntry wCrawlA "connection timed out") "endpoint" =
      some (.pstr "A") ∧
    dictGet (failEntry wCrawlA "connection timed out") "error" =
      some (.pstr "connection timed out") ∧
    ((PyVal.pstr "A", PyVal.pstr "connection timed out") ∈
      (save_summary
        (crawl_all_endpoints_xml [wCrawlA, wCrawlB] wRun)).failed_endpoints) :=
  c9_endpoint_failure_isolated [wCrawlA, wCrawlB] wRun 0 wCrawlA
    "connection timed out" "A" rfl rfl rfl
